import Mathlib

/-!
Verification of the Conductor event-timeline generators.

The repository builds "synchronized-action event" values (Python dicts),
serializes them to compact JSON, compresses the text with gzip, and encodes
the compressed bytes in URL-safe base64 with the padding stripped
(functions generate_event / generate_pantheon_event / generate_test_event
and encode_event in src/test-data and src/conductor-mobile/scripts).

This file gives a shallow embedding of those functions and proves the
properties claimed of them.  Python dicts are modelled as ordered
association lists (insertion order is what json.dumps serializes), machine
integers as Nat / Int, byte strings as List Nat with every entry < 256, and
the wall clock reading datetime.now(timezone.utc) as an explicit Nat
parameter (seconds since the Unix epoch; the scripts only ever format
timestamps at second precision, so sub-second detail is dropped exactly as
strftime drops it).
-/

namespace Conductor

/-- JSON values, as produced by the Python scripts: objects are ordered
key/value lists (Python dict insertion order).  All numbers occurring in
the repository are integers, so numbers are modelled as Int. -/
inductive Json where
  | null : Json
  | bool : Bool → Json
  | num  : Int → Json
  | str  : String → Json
  | arr  : List Json → Json
  | obj  : List (String × Json) → Json

/-! ## Decimal numerals -/
/-- Decimal digits of a natural number, most significant first,
written with explicit fuel so that the kernel can evaluate it
(the fuel argument strictly decreases; fuel n + 1 always suffices
because n / 10 < n for n ≥ 10). -/
def decDigitsAux : Nat → Nat → List Char → List Char
  | 0, _, acc => acc
  | fuel + 1, n, acc =>
    let acc1 := Char.ofNat (48 + n % 10) :: acc
    if n < 10 then acc1 else decDigitsAux fuel (n / 10) acc1

/-- Decimal digits of a natural number, most significant first. -/
def decDigits (n : Nat) : List Char :=
  decDigitsAux (n + 1) n []

/-- Reference (fuel-free) form of decDigits, used in proofs. -/
def digitsRec (n : Nat) : List Char :=
  if h : n < 10 then [Char.ofNat (48 + n)]
  else digitsRec (n / 10) ++ [Char.ofNat (48 + n % 10)]
termination_by n
decreasing_by
  exact Nat.div_lt_self (by omega) (by omega)

/-- Decimal rendering of an integer, with a leading minus sign when
negative (this is how json.dumps prints Python ints). -/
def serInt (n : Int) : List Char :=
  match n with
  | .ofNat m => decDigits m
  | .negSucc m => '-' :: decDigits (m + 1)

/-! ## Compact JSON serialization

Model of json.dumps(event, separators=(',', ':')) with the default
ensure_ascii=True: keys and values in insertion order, no whitespace
between structural tokens, double quotes and backslashes escaped, the
control characters 8, 9, 10, 12, 13 escaped with their short forms, every
other character outside the printable ASCII range 0x20 - 0x7e escaped as
a lowercase hexadecimal u-escape, with a UTF-16 surrogate pair for code
points at 0x10000 and above. -/
/-- Lowercase hexadecimal digit, as printed by the u-escapes of
json.dumps. -/
def hexChar (n : Nat) : Char :=
  if n < 10 then Char.ofNat (48 + n) else Char.ofNat (87 + n)

/-- Four lowercase hexadecimal digits of a value below 0x10000. -/
def hex4 (n : Nat) : List Char :=
  [hexChar (n / 4096 % 16), hexChar (n / 256 % 16),
   hexChar (n / 16 % 16), hexChar (n % 16)]

/-- Escape of a single character inside a JSON string literal
(model of the ESCAPE_ASCII table of the json package). -/
def escChar (c : Char) : List Char :=
  if c = '"' then ['\\', '"']
  else if c = '\\' then ['\\', '\\']
  else if 32 ≤ c.toNat ∧ c.toNat ≤ 126 then [c]
  else if c.toNat = 8 then ['\\', 'b']
  else if c.toNat = 9 then ['\\', 't']
  else if c.toNat = 10 then ['\\', 'n']
  else if c.toNat = 12 then ['\\', 'f']
  else if c.toNat = 13 then ['\\', 'r']
  else if c.toNat < 65536 then '\\' :: 'u' :: hex4 c.toNat
  else '\\' :: 'u' :: hex4 (55296 + (c.toNat - 65536) / 1024) ++
       '\\' :: 'u' :: hex4 (56320 + (c.toNat - 65536) % 1024)

/-- JSON string literal for a character list, including the quotes. -/
def serStrChars (s : List Char) : List Char :=
  '"' :: s.flatMap escChar ++ ['"']

mutual

/-- Compact JSON rendering of a value: json.dumps with
separators=(',', ':') and ensure_ascii=True. -/
def serJson : Json → List Char
  | .null => "null".data
  | .bool b => if b then "true".data else "false".data
  | .num n => serInt n
  | .str s => serStrChars s.data
  | .arr xs => '[' :: serArr xs ++ [']']
  | .obj xs => '{' :: serObj xs ++ ['}']

/-- Array elements joined with a comma and no whitespace. -/
def serArr : List Json → List Char
  | [] => []
  | [x] => serJson x
  | x :: y :: rest => serJson x ++ ',' :: serArr (y :: rest)

/-- Object members key:value joined with a comma and no whitespace. -/
def serObj : List (String × Json) → List Char
  | [] => []
  | [(k, v)] => serStrChars k.data ++ ':' :: serJson v
  | (k, v) :: e :: rest =>
      serStrChars k.data ++ ':' :: serJson v ++ ',' :: serObj (e :: rest)

end

/-- The json.dumps(event, separators=(',', ':')) call of encode_event. -/
def jsonDumps (j : Json) : String :=
  String.mk (serJson j)

/-! ## JSON parsing

Modelled from the spec: the decode side of the Transport Codec lives in the
consuming mobile client, which is not part of src/; the parser below reads
the compact textual form back into a Json value, accepting exactly the
grammar the serializer emits (strict JSON with no whitespace between
structural tokens, integer numbers, u-escapes with surrogate pairs). -/
/-- Value of one hexadecimal digit, either case. -/
def hexVal (c : Char) : Option Nat :=
  if 48 ≤ c.toNat ∧ c.toNat ≤ 57 then some (c.toNat - 48)
  else if 97 ≤ c.toNat ∧ c.toNat ≤ 102 then some (c.toNat - 87)
  else if 65 ≤ c.toNat ∧ c.toNat ≤ 70 then some (c.toNat - 55)
  else none

/-- Short escape table: the character denoted by a backslash escape other
than a u-escape. -/
def escTable (e : Char) : Option Char :=
  if e = '"' then some '"'
  else if e = '\\' then some '\\'
  else if e = '/' then some '/'
  else if e = 'b' then some (Char.ofNat 8)
  else if e = 'f' then some (Char.ofNat 12)
  else if e = 'n' then some (Char.ofNat 10)
  else if e = 'r' then some (Char.ofNat 13)
  else if e = 't' then some (Char.ofNat 9)
  else none

/-- Decode one backslash escape unit (the input starts right after the
backslash), returning the denoted character and the remainder: either a
u-escape (with a full surrogate pair for astral code points) or a short
escape from the table. -/
def pEscUnit : List Char → Option (Char × List Char)
  | [] => none
  | e :: rest2 =>
    if e = 'u' then
      match rest2 with
      | h1 :: h2 :: h3 :: h4 :: rest3 =>
        Option.bind (hexVal h1) fun a =>
        Option.bind (hexVal h2) fun b =>
        Option.bind (hexVal h3) fun c3 =>
        Option.bind (hexVal h4) fun d =>
        if 55296 ≤ 4096 * a + 256 * b + 16 * c3 + d ∧
           4096 * a + 256 * b + 16 * c3 + d < 56320 then
          match rest3 with
          | e2 :: u2 :: g1 :: g2 :: g3 :: g4 :: rest4 =>
            if e2 = '\\' ∧ u2 = 'u' then
              Option.bind (hexVal g1) fun a2 =>
              Option.bind (hexVal g2) fun b2 =>
              Option.bind (hexVal g3) fun c4 =>
              Option.bind (hexVal g4) fun d2 =>
              if 56320 ≤ 4096 * a2 + 256 * b2 + 16 * c4 + d2 ∧
                 4096 * a2 + 256 * b2 + 16 * c4 + d2 < 57344 then
                some (Char.ofNat (65536 +
                  1024 * (4096 * a + 256 * b + 16 * c3 + d - 55296) +
                  (4096 * a2 + 256 * b2 + 16 * c4 + d2 - 56320)), rest4)
              else none
            else none
          | _ => none
        else if 56320 ≤ 4096 * a + 256 * b + 16 * c3 + d ∧
                4096 * a + 256 * b + 16 * c3 + d < 57344 then none
        else
          some (Char.ofNat (4096 * a + 256 * b + 16 * c3 + d), rest3)
      | _ => none
    else
      Option.bind (escTable e) fun c2 => some (c2, rest2)

/-- Scan the body of a JSON string literal (after the opening quote),
returning the unescaped characters and the remainder after the closing
quote.  Lone surrogates and unescaped control characters are rejected.
The fuel decreases at every consumed character, so fuel length + 1 always
suffices. -/
def pStrChars : Nat → List Char → Option (List Char × List Char)
  | 0, _ => none
  | _ + 1, [] => none
  | f + 1, c :: rest =>
    if c = '"' then some ([], rest)
    else if c = '\\' then
      Option.bind (pEscUnit rest) fun q =>
      Option.bind (pStrChars f q.2) fun p =>
      some (q.1 :: p.1, p.2)
    else if c.toNat < 32 then none
    else
      Option.bind (pStrChars f rest) fun p =>
      some (c :: p.1, p.2)

/-- Is the character a decimal digit. -/
def isDig (c : Char) : Bool :=
  48 ≤ c.toNat && c.toNat ≤ 57

/-- Accumulate a run of decimal digits. -/
def readDigitsAux (acc : Nat) : List Char → Nat × List Char
  | [] => (acc, [])
  | c :: cs =>
      if isDig c then readDigitsAux (acc * 10 + (c.toNat - 48)) cs
      else (acc, c :: cs)

/-- Parse an integer JSON number: an optional minus sign followed by at
least one digit. -/
def parseNum : List Char → Option (Int × List Char)
  | [] => none
  | c :: cs =>
    if c = '-' then
      match cs with
      | [] => none
      | d :: ds =>
        if isDig d then
          let p := readDigitsAux 0 (d :: ds)
          some (-(p.1 : Int), p.2)
        else none
    else if isDig c then
      let p := readDigitsAux 0 (c :: cs)
      some ((p.1 : Int), p.2)
    else none

mutual

/-- Parse one JSON value; the fuel bounds the nesting depth and strictly
decreases at every recursive call. -/
def parseVal : Nat → List Char → Option (Json × List Char)
  | 0, _ => none
  | _ + 1, [] => none
  | f + 1, c :: cs =>
    if c = '"' then
      Option.bind (pStrChars (cs.length + 1) cs) fun p =>
      some (.str (String.mk p.1), p.2)
    else if c = 't' then
      match cs with
      | 'r' :: 'u' :: 'e' :: rest => some (.bool true, rest)
      | _ => none
    else if c = 'f' then
      match cs with
      | 'a' :: 'l' :: 's' :: 'e' :: rest => some (.bool false, rest)
      | _ => none
    else if c = 'n' then
      match cs with
      | 'u' :: 'l' :: 'l' :: rest => some (.null, rest)
      | _ => none
    else if c = '[' then
      match cs with
      | [] => none
      | d :: ds =>
        if d = ']' then some (.arr [], ds)
        else
          Option.bind (parseElems f (d :: ds)) fun p =>
          some (.arr p.1, p.2)
    else if c = '{' then
      match cs with
      | [] => none
      | d :: ds =>
        if d = '}' then some (.obj [], ds)
        else
          Option.bind (parseMembers f (d :: ds)) fun p =>
          some (.obj p.1, p.2)
    else
      Option.bind (parseNum (c :: cs)) fun p =>
      some (.num p.1, p.2)

/-- Parse one or more comma-separated array elements up to the closing
bracket. -/
def parseElems : Nat → List Char → Option (List Json × List Char)
  | 0, _ => none
  | f + 1, cs =>
      Option.bind (parseVal f cs) fun p =>
      match p.2 with
      | ',' :: rest =>
          Option.bind (parseElems f rest) fun q =>
          some (p.1 :: q.1, q.2)
      | ']' :: rest => some ([p.1], rest)
      | _ => none

/-- Parse one or more comma-separated object members up to the closing
brace. -/
def parseMembers : Nat → List Char → Option (List (String × Json) × List Char)
  | 0, _ => none
  | f + 1, cs =>
      match cs with
      | '"' :: cs2 =>
          Option.bind (pStrChars (cs2.length + 1) cs2) fun k =>
          match k.2 with
          | ':' :: cs3 =>
              Option.bind (parseVal f cs3) fun p =>
              match p.2 with
              | ',' :: rest =>
                  Option.bind (parseMembers f rest) fun q =>
                  some ((String.mk k.1, p.1) :: q.1, q.2)
              | '}' :: rest => some ([(String.mk k.1, p.1)], rest)
              | _ => none
          | _ => none
      | _ => none

end

/-- The json.loads counterpart of jsonDumps: parse a whole string as one
JSON value with nothing left over.  The fuel length + 1 always suffices
because the nesting depth of a textual JSON value is below its length. -/
def jsonLoads (s : String) : Option Json :=
  match parseVal (s.data.length + 1) s.data with
  | some (j, []) => some j
  | _ => none

/-- Whether the scan of a number would stop right at this list: true when
it is empty or starts with a non-digit. -/
def headNotDigit (cs : List Char) : Bool :=
  match cs with
  | [] => true
  | c :: _ => !(isDig c)

/-! ## Serialized size bound and head shape -/
mutual

/-- Node count of a JSON value; a lower bound for the parser fuel. -/
def sizeJ : Json → Nat
  | .null => 1
  | .bool _ => 1
  | .num _ => 1
  | .str _ => 1
  | .arr xs => 1 + sizeA xs
  | .obj xs => 1 + sizeO xs

/-- Size of an array tail. -/
def sizeA : List Json → Nat
  | [] => 0
  | x :: xs => 1 + sizeJ x + sizeA xs

/-- Size of an object tail. -/
def sizeO : List (String × Json) → Nat
  | [] => 0
  | (_, v) :: ms => 1 + sizeJ v + sizeO ms

end

/-! ## UTF-8

Model of json_str.encode('utf-8') in encode_event.  Since json.dumps runs
with ensure_ascii=True, its output is pure ASCII, so the round trip is
only ever exercised on bytes below 128; the encoder is nevertheless the
full UTF-8 encoding. -/
/-- UTF-8 bytes of one character. -/
def utf8EncodeChar (c : Char) : List Nat :=
  let v := c.toNat
  if v < 128 then [v]
  else if v < 2048 then [192 + v / 64, 128 + v % 64]
  else if v < 65536 then [224 + v / 4096, 128 + v / 64 % 64, 128 + v % 64]
  else [240 + v / 262144, 128 + v / 4096 % 64, 128 + v / 64 % 64, 128 + v % 64]

/-- The str.encode('utf-8') call of encode_event. -/
def utf8Encode (s : String) : List Nat :=
  s.data.flatMap utf8EncodeChar

/-- Modelled from the spec: the decoder byte-stream-to-text step of the
mobile client (absent from src/).  Strict UTF-8: continuation bytes,
overlong forms, surrogates and out-of-range values are rejected. -/
def utf8DecodeAux : Nat → List Nat → Option (List Char)
  | 0, _ => none
  | _ + 1, [] => some []
  | f + 1, b :: rest =>
    if b < 128 then
      Option.bind (utf8DecodeAux f rest) fun cs => some (Char.ofNat b :: cs)
    else if 192 ≤ b ∧ b < 224 then
      match rest with
      | b2 :: rest2 =>
        if 128 ≤ b2 ∧ b2 < 192 then
          if 128 ≤ (b - 192) * 64 + (b2 - 128) then
            Option.bind (utf8DecodeAux f rest2) fun cs =>
            some (Char.ofNat ((b - 192) * 64 + (b2 - 128)) :: cs)
          else none
        else none
      | _ => none
    else if 224 ≤ b ∧ b < 240 then
      match rest with
      | b2 :: b3 :: rest2 =>
        if 128 ≤ b2 ∧ b2 < 192 ∧ 128 ≤ b3 ∧ b3 < 192 then
          if 2048 ≤ (b - 224) * 4096 + (b2 - 128) * 64 + (b3 - 128) ∧
             ¬ (55296 ≤ (b - 224) * 4096 + (b2 - 128) * 64 + (b3 - 128) ∧
                (b - 224) * 4096 + (b2 - 128) * 64 + (b3 - 128) < 57344) then
            Option.bind (utf8DecodeAux f rest2) fun cs =>
            some (Char.ofNat ((b - 224) * 4096 + (b2 - 128) * 64 + (b3 - 128)) :: cs)
          else none
        else none
      | _ => none
    else if 240 ≤ b ∧ b < 248 then
      match rest with
      | b2 :: b3 :: b4 :: rest2 =>
        if 128 ≤ b2 ∧ b2 < 192 ∧ 128 ≤ b3 ∧ b3 < 192 ∧ 128 ≤ b4 ∧ b4 < 192 then
          if 65536 ≤ (b - 240) * 262144 + (b2 - 128) * 4096 +
               (b3 - 128) * 64 + (b4 - 128) ∧
             (b - 240) * 262144 + (b2 - 128) * 4096 +
               (b3 - 128) * 64 + (b4 - 128) < 1114112 then
            Option.bind (utf8DecodeAux f rest2) fun cs =>
            some (Char.ofNat ((b - 240) * 262144 + (b2 - 128) * 4096 +
              (b3 - 128) * 64 + (b4 - 128)) :: cs)
          else none
        else none
      | _ => none
    else none

/-- Modelled from the spec: whole-stream UTF-8 decoding. -/
def utf8Decode (bs : List Nat) : Option String :=
  Option.map String.mk (utf8DecodeAux (bs.length + 1) bs)

/-! ## gzip

Model of gzip.compress(data) in encode_event.  Python writes a 10-byte
header (magic 1f 8b, method 8, flags 0, the CURRENT TIME as a 4-byte
little-endian MTIME field, XFL 2 for the default level 9, OS byte 255),
then the deflate body, then the CRC-32 of the input and its length mod
2^32, each little endian.  Because gzip.compress is called without an
mtime argument, the wall clock enters the output; it is therefore an
explicit parameter here.  The deflate body itself is modelled with RFC
1951 stored (uncompressed) blocks: a faithful member of the deflate
format family preserving the framing, losslessness and header layout that
the claims are about, while the exact bit stream of zlib level 9 is not
reproduced. -/
/-- Two little-endian bytes of a value at most 65535. -/
def le16 (n : Nat) : List Nat :=
  [n % 256, n / 256]

/-- Four little-endian bytes of a value below 2^32. -/
def le32 (n : Nat) : List Nat :=
  [n % 256, n / 256 % 256, n / 65536 % 256, n / 16777216 % 256]

/-- One bit step of CRC-32 with the reflected polynomial edb88320. -/
def crcRound (c : Nat) : Nat :=
  if c % 2 = 1 then (c / 2) ^^^ 3988292384 else c / 2

/-- Eight bit steps. -/
def crcRounds : Nat → Nat → Nat
  | 0, c => c
  | n + 1, c => crcRounds n (crcRound c)

/-- CRC-32 accumulator over a byte list. -/
def crc32Aux (c : Nat) : List Nat → Nat
  | [] => c
  | b :: bs => crc32Aux (crcRounds 8 (c ^^^ b % 256)) bs

/-- CRC-32 of a byte list, as zlib.crc32 computes it. -/
def crc32 (bs : List Nat) : Nat :=
  crc32Aux 4294967295 bs ^^^ 4294967295

/-- Stored-block deflate body: blocks of at most 65535 raw bytes, each
headed by a final-bit byte, LEN and NLEN = 65535 - LEN little endian.
The fuel strictly decreases; any fuel above the data length suffices. -/
def dstoredAux : Nat → List Nat → List Nat
  | 0, _ => []
  | f + 1, data =>
    if data.length ≤ 65535 then
      1 :: (le16 data.length ++ le16 (65535 - data.length) ++ data)
    else
      0 :: (le16 65535 ++ le16 0 ++ data.take 65535 ++
        dstoredAux f (data.drop 65535))

/-- The deflate body of the model of gzip.compress. -/
def deflateStored (data : List Nat) : List Nat :=
  dstoredAux (data.length + 1) data

/-- Modelled from the spec: the inflate step of the decoder (mobile
client, absent from src/), restricted to the stored-block subset the
compressor emits; returns the payload and the remaining stream. -/
def inflStored : Nat → List Nat → Option (List Nat × List Nat)
  | 0, _ => none
  | f + 1, b :: l0 :: l1 :: n0 :: n1 :: rest =>
    if n0 + 256 * n1 = 65535 - (l0 + 256 * l1) ∧
       l0 + 256 * l1 ≤ rest.length then
      if b = 1 then some (rest.take (l0 + 256 * l1), rest.drop (l0 + 256 * l1))
      else if b = 0 then
        Option.bind (inflStored f (rest.drop (l0 + 256 * l1))) fun p =>
        some (rest.take (l0 + 256 * l1) ++ p.1, p.2)
      else none
    else none
  | _ + 1, _ => none

/-- Model of gzip.compress(data) at the given clock reading. -/
def gzipCompress (mtime : Nat) (data : List Nat) : List Nat :=
  [31, 139, 8, 0] ++ le32 mtime ++ [2, 255] ++ deflateStored data ++
    le32 (crc32 data) ++ le32 (data.length % 4294967296)

/-- Modelled from the spec: the gzip decompression step of the decoder
(mobile client, absent from src/): parse the fixed header, skip the MTIME,
XFL and OS fields, inflate, then check the CRC-32 and length trailer. -/
def gunzip (bs : List Nat) : Option (List Nat) :=
  match bs with
  | 31 :: 139 :: 8 :: 0 :: _ :: _ :: _ :: _ :: _ :: _ :: rest =>
    Option.bind (inflStored (rest.length + 1) rest) fun p =>
    match p.2 with
    | [c0, c1, c2, c3, s0, s1, s2, s3] =>
      if c0 + 256 * c1 + 65536 * c2 + 16777216 * c3 = crc32 p.1 ∧
         s0 + 256 * s1 + 65536 * s2 + 16777216 * s3 = p.1.length % 4294967296 then
        some p.1
      else none
    | _ => none
  | _ => none

/-! ## base64

Model of base64.b64encode(compressed).decode('ascii') followed by
.replace('+', '-').replace('/', '_').rstrip('=') in encode_event, and of
the inverse used by the decoder. -/
/-- Standard base64 alphabet. -/
def encChar (n : Nat) : Char :=
  if n < 26 then Char.ofNat (65 + n)
  else if n < 52 then Char.ofNat (97 + (n - 26))
  else if n < 62 then Char.ofNat (48 + (n - 52))
  else if n = 62 then '+'
  else '/'

/-- Inverse alphabet lookup. -/
def decChar (c : Char) : Option Nat :=
  if 65 ≤ c.toNat ∧ c.toNat ≤ 90 then some (c.toNat - 65)
  else if 97 ≤ c.toNat ∧ c.toNat ≤ 122 then some (c.toNat - 97 + 26)
  else if 48 ≤ c.toNat ∧ c.toNat ≤ 57 then some (c.toNat - 48 + 52)
  else if c = '+' then some 62
  else if c = '/' then some 63
  else none

/-- The two character substitutions '+' to '-' and '/' to '_'. -/
def substPlus (c : Char) : Char :=
  if c = '+' then '-' else if c = '/' then '_' else c

/-- Modelled from the spec: undoing the two substitutions on decode. -/
def unsubst (c : Char) : Char :=
  if c = '-' then '+' else if c = '_' then '/' else c

/-- Is the character in the URL-safe output alphabet A-Z a-z 0-9 - _ . -/
def urlOk (c : Char) : Bool :=
  (65 ≤ c.toNat && c.toNat ≤ 90) || (97 ≤ c.toNat && c.toNat ≤ 122) ||
  (48 ≤ c.toNat && c.toNat ≤ 57) || c == '-' || c == '_'

/-- base64.b64encode on a byte list. -/
def b64e : List Nat → List Char
  | [] => []
  | [a] => [encChar (a / 4), encChar (a % 4 * 16), '=', '=']
  | [a, b] => [encChar (a / 4), encChar (a % 4 * 16 + b / 16),
               encChar (b % 16 * 4), '=']
  | a :: b :: c :: rest =>
    encChar (a / 4) :: encChar (a % 4 * 16 + b / 16) ::
      encChar (b % 16 * 4 + c / 64) :: encChar (c % 64) :: b64e rest

/-- Modelled from the spec: base64 decoding on the decoder side: groups of
four alphabet characters, with padding allowed only at the very end. -/
def b64d : List Char → Option (List Nat)
  | [] => some []
  | c1 :: c2 :: c3 :: c4 :: rest =>
    Option.bind (decChar c1) fun w1 =>
    Option.bind (decChar c2) fun w2 =>
    if c3 = '=' then
      if c4 = '=' ∧ rest = [] then some [w1 * 4 + w2 / 16]
      else none
    else
      Option.bind (decChar c3) fun w3 =>
      if c4 = '=' then
        if rest = [] then some [w1 * 4 + w2 / 16, w2 % 16 * 16 + w3 / 4]
        else none
      else
        Option.bind (decChar c4) fun w4 =>
        Option.bind (b64d rest) fun bs =>
        some ((w1 * 4 + w2 / 16) :: (w2 % 16 * 16 + w3 / 4) :: (w3 % 4 * 64 + w4) :: bs)
  | _ => none

/-- The .rstrip('=') call of encode_event. -/
def rstripEq (s : List Char) : List Char :=
  (s.reverse.dropWhile (fun c => c == '=')).reverse

/-- The token produced from a byte string: base64, the two substitutions,
padding stripped.  This is the tail of encode_event. -/
def urlSafeToken (bs : List Nat) : List Char :=
  rstripEq ((b64e bs).map substPlus)

/-- Modelled from the spec: decoder token-to-bytes step: re-insert the
(4 - len mod 4) mod 4 padding characters, undo the substitutions,
base64-decode. -/
def b64UrlDecode (token : List Char) : Option (List Nat) :=
  b64d ((token ++ List.replicate ((4 - token.length % 4) % 4) '=').map unsubst)

/-! ## encode_event

The shared tail of all three generator scripts: compact JSON, gzip,
base64, '+' to '-', '/' to '_', strip '='.  The wall-clock reading that
gzip.compress embeds in the MTIME header field is an explicit argument. -/
/-- str.replace(a, b) for single characters. -/
def pyReplace (a b : Char) (s : List Char) : List Char :=
  s.map (fun c => if c = a then b else c)

/-- encode_event of the generator scripts. -/
def encode_event (mtime : Nat) (event : Json) : List Char :=
  rstripEq (pyReplace '/' '_' (pyReplace '+' '-'
    (b64e (gzipCompress mtime (utf8Encode (jsonDumps event))))))

/-! ## Schema validation and decode

The decoder lives in the mobile client, which is not part of the staged
sources; everything below is modelled from the spec: required and optional
Event/Action fields, the two closed enumerations, the timestamp and color
shapes, strictly decreasing countdownSeconds, id uniqueness, and a decode
that reports CorruptPayloadError for base64/gzip failures and SchemaError
(naming the offending field when one is identified) for schema failures. -/
/-- Ordered-dict lookup, first match. -/
def jlookup : List (String × Json) → String → Option Json
  | [], _ => none
  | (k, v) :: rest, key => if k = key then some v else jlookup rest key

/-- The fields of a JSON object, [] for any other value. -/
def fieldsOf : Json → List (String × Json)
  | Json.obj f => f
  | _ => []

def isDigitCh (c : Char) : Bool := 48 ≤ c.toNat && c.toNat ≤ 57

/-- Modelled from the spec: the YYYY-MM-DDTHH:MM:SSZ shape. -/
def isTimestamp (s : String) : Bool :=
  match s.data with
  | [a, b, c, d, '-', e, f, '-', g, h, 'T', i, j, ':', k, l, ':', m, n, 'Z'] =>
    isDigitCh a && isDigitCh b && isDigitCh c && isDigitCh d &&
    isDigitCh e && isDigitCh f && isDigitCh g && isDigitCh h &&
    isDigitCh i && isDigitCh j && isDigitCh k && isDigitCh l &&
    isDigitCh m && isDigitCh n
  | _ => false

def isHexCh (c : Char) : Bool :=
  isDigitCh c || (97 ≤ c.toNat && c.toNat ≤ 102) ||
    (65 ≤ c.toNat && c.toNat ≤ 70)

/-- Modelled from the spec: the #RRGGBB color shape. -/
def isColor (s : String) : Bool :=
  match s.data with
  | ['#', a, b, c, d, e, f] =>
    isHexCh a && isHexCh b && isHexCh c && isHexCh d && isHexCh e && isHexCh f
  | _ => false

def isStyle : Json → Bool
  | Json.str s => s == "normal" || s == "emphasis" || s == "alert"
  | _ => false

def isHaptic : Json → Bool
  | Json.str s => s == "single" || s == "double" || s == "triple"
  | _ => false

def isBool : Json → Bool
  | Json.bool _ => true
  | _ => false

def isStr : Json → Bool
  | Json.str _ => true
  | _ => false

def isNonEmptyStr : Json → Bool
  | Json.str s => s != ""
  | _ => false

def isTimestampJ : Json → Bool
  | Json.str s => isTimestamp s
  | _ => false

def isColorJ : Json → Bool
  | Json.str s => isColor s
  | _ => false

def isNonnegNum : Json → Bool
  | Json.num n => decide (0 ≤ n)
  | _ => false

/-- Modelled from the spec: non-negative, strictly decreasing. -/
def cdList : List Json → Bool
  | [] => true
  | [Json.num n] => decide (0 ≤ n)
  | Json.num n :: Json.num m :: rest =>
    decide (0 ≤ n) && decide (m < n) && cdList (Json.num m :: rest)
  | _ => false

def isCountdown : Json → Bool
  | Json.arr l => cdList l
  | _ => false

/-- A required field: present and of the right shape. -/
def checkReq (f : List (String × Json)) (k : String) (p : Json → Bool) : Bool :=
  match jlookup f k with
  | some v => p v
  | none => false

/-- An optional field: absent, or of the right shape. -/
def checkOpt (f : List (String × Json)) (k : String) (p : Json → Bool) : Bool :=
  match jlookup f k with
  | some v => p v
  | none => true

/-- Modelled from the spec: per-Action checks, in schema order; the result
is the first offending field name. -/
def validateAction : Json → Option String
  | Json.obj f =>
    if ¬ checkReq f "id" isStr then some "id"
    else if ¬ checkReq f "time" isTimestampJ then some "time"
    else if ¬ checkReq f "action" isNonEmptyStr then some "action"
    else if ¬ checkReq f "audioAnnounce" isBool then some "audioAnnounce"
    else if ¬ checkReq f "announceActionName" isBool then some "announceActionName"
    else if ¬ checkReq f "style" isStyle then some "style"
    else if ¬ checkOpt f "hapticPattern" isHaptic then some "hapticPattern"
    else if ¬ checkOpt f "color" isColorJ then some "color"
    else if ¬ checkOpt f "icon" isStr then some "icon"
    else if ¬ checkOpt f "noticeSeconds" isNonnegNum then some "noticeSeconds"
    else if ¬ checkOpt f "countdownSeconds" isCountdown then some "countdownSeconds"
    else none
  | _ => some "timeline"

def validateTimeline : List Json → Option String
  | [] => none
  | a :: rest =>
    match validateAction a with
    | some e => some e
    | none => validateTimeline rest

def actionIds : List Json → List String
  | [] => []
  | a :: rest =>
    (match jlookup (fieldsOf a) "id" with
     | some (Json.str s) => [s]
     | _ => []) ++ actionIds rest

def nodupStr : List String → Bool
  | [] => true
  | s :: rest => !(rest.contains s) && nodupStr rest

/-- Modelled from the spec: whole-Event checks, required fields in schema
order, then the timeline and id uniqueness; none means conformant. -/
def validateEvent : Json → Option String
  | Json.obj f =>
    if ¬ checkReq f "title" isNonEmptyStr then some "title"
    else if ¬ checkOpt f "description" isStr then some "description"
    else if ¬ checkReq f "startTime" isTimestampJ then some "startTime"
    else if ¬ checkReq f "timezone" isStr then some "timezone"
    else
      match jlookup f "timeline" with
      | some (Json.arr acts) =>
        (match validateTimeline acts with
         | some e => some e
         | none => if ¬ nodupStr (actionIds acts) then some "id" else none)
      | _ => some "timeline"
  | _ => some "title"

/-- Modelled from the spec: the decoder's two failure classes. -/
inductive DecodeErr where
  | corrupt : DecodeErr
  | schema : Option String → DecodeErr

/-- Modelled from the spec: the decoder's textual stage — parse, then
validate; parse and schema failures are SchemaError. -/
def decodeText (text : String) : Except DecodeErr Json :=
  match jsonLoads text with
  | none => Except.error (DecodeErr.schema none)
  | some j =>
    match validateEvent j with
    | some fld => Except.error (DecodeErr.schema (some fld))
    | none => Except.ok j

/-- Modelled from the spec: bytes-to-text stage. -/
def decodePayload (payload : List Nat) : Except DecodeErr Json :=
  match utf8Decode payload with
  | none => Except.error (DecodeErr.schema none)
  | some text => decodeText text

/-- Modelled from the spec: decompression stage — gzip failure is
CorruptPayloadError. -/
def decodeBytes (bs : List Nat) : Except DecodeErr Json :=
  match gunzip bs with
  | none => Except.error DecodeErr.corrupt
  | some payload => decodePayload payload

/-- Modelled from the spec: decode(token), the exact inverse pipeline:
re-pad and base64-decode (failure is CorruptPayloadError), gunzip, decode
the text, parse, validate. -/
def decode (token : List Char) : Except DecodeErr Json :=
  match b64UrlDecode token with
  | none => Except.error DecodeErr.corrupt
  | some bs => decodeBytes bs

/-! ## Timeline Builder

Embeddings of generate_event (generate-conductor-qr.py, over an explicit
template value), generate_pantheon_event and generate_test_event.  The
wall clock is an explicit `now` in epoch seconds; strftime's UTC
"%Y-%m-%dT%H:%M:%SZ" is formatTime, computed with the standard
civil-from-days calendar algorithm (the model covers instants at or after
the epoch).  A missing template key, which in Python would raise KeyError,
is modelled as none. -/
def digitChar (n : Nat) : Char := Char.ofNat (48 + n % 10)

def pad2 (n : Nat) : List Char := [digitChar (n / 10), digitChar n]

def pad4 (n : Nat) : List Char :=
  [digitChar (n / 1000), digitChar (n / 100), digitChar (n / 10), digitChar n]

/-- strftime("%Y-%m-%dT%H:%M:%SZ") on a UTC datetime, from epoch seconds. -/
def formatTime (t : Nat) : String :=
  let days := t / 86400
  let secs := t % 86400
  let z := days + 719468
  let era := z / 146097
  let doe := z % 146097
  let yoe := (doe - doe / 1460 + doe / 36524 - doe / 146096) / 365
  let y := yoe + era * 400
  let doy := doe - (365 * yoe + yoe / 4 - yoe / 100)
  let mp := (5 * doy + 2) / 153
  let d := doy - (153 * mp + 2) / 5 + 1
  let m := if mp < 10 then mp + 3 else mp - 9
  let y2 := if m ≤ 2 then y + 1 else y
  String.mk (pad4 y2 ++ '-' :: pad2 m ++ '-' :: pad2 d ++ 'T' ::
    pad2 (secs / 3600) ++ ':' :: pad2 (secs % 3600 / 60) ++ ':' ::
    pad2 (secs % 60) ++ ['Z'])

/-- Python dict update semantics for one key: replace in place when the
key exists, append otherwise. -/
def dictUpdate (d : List (String × Json)) (k : String) (v : Json) :
    List (String × Json) :=
  if d.any (fun p => p.1 == k) then
    d.map (fun p => if p.1 = k then (k, v) else p)
  else d ++ [(k, v)]

/-- The dict-literal ** spread: fold the entries in as updates. -/
def dictUpdateAll (d : List (String × Json)) (entries : List (String × Json)) :
    List (String × Json) :=
  entries.foldl (fun acc p => dictUpdate acc p.1 p.2) d

/-- An EVENTS entry: title, description and the ordered action templates,
each an ordered dict. -/
structure Template where
  mk :: (title : String) (description : String)
        (actions : List (List (String × Json)))

/-- The action template's relativeTime value, when it is a number. -/
def relOf (act : List (String × Json)) : Option Int :=
  match jlookup act "relativeTime" with
  | some (Json.num n) => some n
  | _ => none

/-- f"action-{i+1}". -/
def actionId (i : Nat) : String :=
  String.mk ("action-".data ++ decDigits (i + 1))

/-- The action-building loop of generate_event: index i, generated id and
time, the literal booleans, then the template spread minus "action". -/
def buildActions (start : Nat) : Nat → List (List (String × Json)) →
    Option (List Json)
  | _, [] => some []
  | i, act :: rest =>
    Option.bind (relOf act) fun rel =>
    Option.bind (jlookup act "action") fun av =>
    Option.bind (buildActions start (i + 1) rest) fun acts =>
    some (Json.obj (dictUpdateAll
      [("id", Json.str (actionId i)),
       ("time", Json.str (formatTime (Int.toNat (start + rel)))),
       ("action", av),
       ("audioAnnounce", Json.bool true),
       ("announceActionName", Json.bool true)]
      (act.filter (fun p => p.1 != "action"))) :: acts)

/-- generate_event of generate-conductor-qr.py. -/
def generate_event (template : Template) (now : Nat)
    (start_minutes_from_now : Nat) : Option Json :=
  let start := now + 60 * start_minutes_from_now
  Option.bind (buildActions start 0 template.actions) fun acts =>
  some (Json.obj [
    ("title", Json.str template.title),
    ("description", Json.str template.description),
    ("startTime", Json.str (formatTime start)),
    ("timezone", Json.str "America/Denver"),
    ("timeline", Json.arr acts)])

/-- The EVENTS["inaugural"] template. -/
def inauguralTemplate : Template :=
  Template.mk "Pantheon Inaugural"
    "Your AI assistants present: a demonstration of synchronized coordination."
    [[("relativeTime", Json.num 0),
      ("action", Json.str "Take a deep breath. The Pantheon is online."),
      ("color", Json.str "#9C27B0"), ("icon", Json.str "🏛️"),
      ("style", Json.str "emphasis"), ("hapticPattern", Json.str "single"),
      ("noticeSeconds", Json.num 15),
      ("countdownSeconds", Json.arr [Json.num 10, Json.num 5, Json.num 3,
        Json.num 2, Json.num 1])],
     [("relativeTime", Json.num 20),
      ("action", Json.str "Raise your phone like a torch. You are the conductor now."),
      ("color", Json.str "#FF9800"), ("icon", Json.str "🔥"),
      ("style", Json.str "emphasis"), ("hapticPattern", Json.str "double"),
      ("noticeSeconds", Json.num 10),
      ("countdownSeconds", Json.arr [Json.num 5, Json.num 3, Json.num 2,
        Json.num 1])],
     [("relativeTime", Json.num 40),
      ("action", Json.str "Look left, then right. You're part of something bigger."),
      ("color", Json.str "#2196F3"), ("icon", Json.str "👀"),
      ("style", Json.str "normal"), ("hapticPattern", Json.str "single"),
      ("noticeSeconds", Json.num 10),
      ("countdownSeconds", Json.arr [Json.num 5, Json.num 3, Json.num 2,
        Json.num 1])],
     [("relativeTime", Json.num 60),
      ("action", Json.str "Clap once. The signal has been sent."),
      ("color", Json.str "#4CAF50"), ("icon", Json.str "👏"),
      ("style", Json.str "alert"), ("hapticPattern", Json.str "triple"),
      ("noticeSeconds", Json.num 10),
      ("countdownSeconds", Json.arr [Json.num 5, Json.num 3, Json.num 2,
        Json.num 1])],
     [("relativeTime", Json.num 80),
      ("action", Json.str "Final pose: arms crossed, slight nod. Test complete."),
      ("color", Json.str "#E91E63"), ("icon", Json.str "✨"),
      ("style", Json.str "emphasis"), ("hapticPattern", Json.str "double"),
      ("noticeSeconds", Json.num 10),
      ("countdownSeconds", Json.arr [Json.num 5, Json.num 3, Json.num 2,
        Json.num 1])]]

/-- The EVENTS["diagnostic"] template. -/
def diagnosticTemplate : Template :=
  Template.mk "Pantheon Node Initialization"
    "System diagnostic and welcome sequence for Conductor mobile node."
    [[("relativeTime", Json.num 0),
      ("action", Json.str "System Link Established"),
      ("color", Json.str "#4CAF50"), ("icon", Json.str "🔗"),
      ("style", Json.str "normal"), ("hapticPattern", Json.str "single"),
      ("noticeSeconds", Json.num 10),
      ("countdownSeconds", Json.arr [Json.num 5, Json.num 3, Json.num 2,
        Json.num 1])],
     [("relativeTime", Json.num 30),
      ("action", Json.str "Audio Channel Diagnostic"),
      ("color", Json.str "#2196F3"), ("icon", Json.str "🔊"),
      ("style", Json.str "emphasis"), ("hapticPattern", Json.str "double"),
      ("noticeSeconds", Json.num 5),
      ("countdownSeconds", Json.arr [Json.num 3, Json.num 2, Json.num 1])],
     [("relativeTime", Json.num 60),
      ("action", Json.str "Haptic Array Stress Test"),
      ("color", Json.str "#FF9800"), ("icon", Json.str "📳"),
      ("style", Json.str "alert"), ("hapticPattern", Json.str "triple"),
      ("noticeSeconds", Json.num 5),
      ("countdownSeconds", Json.arr [Json.num 3, Json.num 2, Json.num 1])],
     [("relativeTime", Json.num 90),
      ("action", Json.str "Visual Synchronization"),
      ("color", Json.str "#F44336"), ("icon", Json.str "👁️"),
      ("style", Json.str "emphasis"), ("hapticPattern", Json.str "triple"),
      ("noticeSeconds", Json.num 5),
      ("countdownSeconds", Json.arr [Json.num 3, Json.num 2, Json.num 1])],
     [("relativeTime", Json.num 120),
      ("action", Json.str "Welcome to the Network, Operator."),
      ("color", Json.str "#9C27B0"), ("icon", Json.str "🏛️"),
      ("style", Json.str "emphasis"), ("hapticPattern", Json.str "double"),
      ("noticeSeconds", Json.num 10),
      ("countdownSeconds", Json.arr [Json.num 5, Json.num 4, Json.num 3,
        Json.num 2, Json.num 1])],
     [("relativeTime", Json.num 150),
      ("action", Json.str "Entering Standby Mode"),
      ("color", Json.str "#607D8B"), ("icon", Json.str "💤"),
      ("style", Json.str "normal"), ("hapticPattern", Json.str "single"),
      ("noticeSeconds", Json.num 5),
      ("countdownSeconds", Json.arr [Json.num 3, Json.num 2, Json.num 1])]]

/-- The EVENTS table. -/
def EVENTS : List (String × Template) :=
  [("inaugural", inauguralTemplate), ("diagnostic", diagnosticTemplate)]

/-- The hardcoded action list of generate-pantheon-qr.py, before the loop
that sets each action's absolute time. -/
def pantheonActions : List (List (String × Json)) :=
  [[("id", Json.str "action-1"), ("relativeTime", Json.num 0),
    ("action", Json.str "Take a deep breath. The Pantheon is online."),
    ("audioAnnounce", Json.bool true), ("noticeSeconds", Json.num 15),
    ("countdownSeconds", Json.arr [Json.num 10, Json.num 5, Json.num 3,
      Json.num 2, Json.num 1]),
    ("announceActionName", Json.bool true), ("color", Json.str "#9C27B0"),
    ("icon", Json.str "🏛️"), ("style", Json.str "emphasis"),
    ("hapticPattern", Json.str "single")],
   [("id", Json.str "action-2"), ("relativeTime", Json.num 20),
    ("action", Json.str "Raise your phone like a torch. You are the conductor now."),
    ("audioAnnounce", Json.bool true), ("noticeSeconds", Json.num 10),
    ("countdownSeconds", Json.arr [Json.num 5, Json.num 3, Json.num 2,
      Json.num 1]),
    ("announceActionName", Json.bool true), ("color", Json.str "#FF9800"),
    ("icon", Json.str "🔥"), ("style", Json.str "emphasis"),
    ("hapticPattern", Json.str "double")],
   [("id", Json.str "action-3"), ("relativeTime", Json.num 40),
    ("action", Json.str "Look left, then right. You're part of something bigger."),
    ("audioAnnounce", Json.bool true), ("noticeSeconds", Json.num 10),
    ("countdownSeconds", Json.arr [Json.num 5, Json.num 3, Json.num 2,
      Json.num 1]),
    ("announceActionName", Json.bool true), ("color", Json.str "#2196F3"),
    ("icon", Json.str "👀"), ("style", Json.str "normal"),
    ("hapticPattern", Json.str "single")],
   [("id", Json.str "action-4"), ("relativeTime", Json.num 60),
    ("action", Json.str "Clap once. The signal has been sent."),
    ("audioAnnounce", Json.bool true), ("noticeSeconds", Json.num 10),
    ("countdownSeconds", Json.arr [Json.num 5, Json.num 3, Json.num 2,
      Json.num 1]),
    ("announceActionName", Json.bool true), ("color", Json.str "#4CAF50"),
    ("icon", Json.str "👏"), ("style", Json.str "alert"),
    ("hapticPattern", Json.str "triple")],
   [("id", Json.str "action-5"), ("relativeTime", Json.num 80),
    ("action", Json.str "Final pose: arms crossed, slight nod. Test complete."),
    ("audioAnnounce", Json.bool true), ("noticeSeconds", Json.num 10),
    ("countdownSeconds", Json.arr [Json.num 5, Json.num 3, Json.num 2,
      Json.num 1]),
    ("announceActionName", Json.bool true), ("color", Json.str "#E91E63"),
    ("icon", Json.str "✨"), ("style", Json.str "emphasis"),
    ("hapticPattern", Json.str "double")]]

/-- The for-loop of generate_pantheon_event: append a "time" key computed
from each action's relativeTime. -/
def pantheonTimes (start : Nat) : List (List (String × Json)) →
    Option (List Json)
  | [] => some []
  | act :: rest =>
    Option.bind (relOf act) fun rel =>
    Option.bind (pantheonTimes start rest) fun acts =>
    some (Json.obj (dictUpdate act "time"
      (Json.str (formatTime (Int.toNat (start + rel))))) :: acts)

/-- generate_pantheon_event of generate-pantheon-qr.py. -/
def generate_pantheon_event (now : Nat) (start_minutes_from_now : Nat) :
    Option Json :=
  let start := now + 60 * start_minutes_from_now
  Option.bind (pantheonTimes start pantheonActions) fun acts =>
  some (Json.obj [
    ("title", Json.str "Pantheon Inaugural"),
    ("description", Json.str
      "Your AI assistants present: a demonstration of synchronized coordination."),
    ("startTime", Json.str (formatTime start)),
    ("timezone", Json.str "America/Denver"),
    ("timeline", Json.arr acts)])

/-- The (text, style) pairs of generate-test-event.py. -/
def action_texts : List (String × String) :=
  [("Raise hand", "emphasis"), ("Wave slowly", "normal"),
   ("Clap once", "alert"), ("Turn around", "normal"),
   ("Take a step forward", "normal"), ("Final pose", "emphasis")]

/-- The action-building loop of generate_test_event. -/
def testActions (start interval : Nat) : Nat → List (String × String) →
    List Json
  | _, [] => []
  | i, (text, style) :: rest =>
    Json.obj [
      ("id", Json.str (actionId i)),
      ("time", Json.str (formatTime (start + i * interval))),
      ("action", Json.str text),
      ("audioAnnounce", Json.bool true),
      ("announceActionName", Json.bool true),
      ("style", Json.str style),
      ("hapticPattern", Json.str (if style == "normal" then "double" else "triple"))]
    :: testActions start interval (i + 1) rest

/-- generate_test_event of generate-test-event.py. -/
def generate_test_event (now : Nat) (start_minutes_from_now : Nat)
    (action_interval_seconds : Nat) : Json :=
  let start := now + 60 * start_minutes_from_now
  Json.obj [
    ("title", Json.str "Test Flash Mob"),
    ("description", Json.str "A test event for Conductor Mobile development"),
    ("startTime", Json.str (formatTime start)),
    ("timezone", Json.str "America/New_York"),
    ("timeline", Json.arr (testActions start action_interval_seconds 0 action_texts))]

/-! ## No inserted whitespace

The compact serialization never emits a space except as literal content of
one of the event's own strings: with separators (',', ':'), json.dumps
inserts no whitespace between structural tokens. -/
mutual

/-- No string value or key of this value contains a space. -/
def noSpaceJson : Json → Bool
  | Json.null => true
  | Json.bool _ => true
  | Json.num _ => true
  | Json.str s => s.data.all (fun c => c != ' ')
  | Json.arr l => noSpaceArr l
  | Json.obj m => noSpaceObj m

def noSpaceArr : List Json → Bool
  | [] => true
  | x :: xs => noSpaceJson x && noSpaceArr xs

def noSpaceObj : List (String × Json) → Bool
  | [] => true
  | (k, v) :: ms => k.data.all (fun c => c != ' ') && noSpaceJson v && noSpaceObj ms

end

/-! ## Witness inputs and builder helper lemmas -/
/-- The timeline list of an event value. -/
def timelineOf (ev : Json) : List Json :=
  match jlookup (fieldsOf ev) "timeline" with
  | some (Json.arr l) => l
  | _ => []

/-- A minimal schema-conformant event: zero actions, optional fields
absent. -/
def E0 : Json :=
  Json.obj [("title", Json.str "A"),
    ("startTime", Json.str "2026-03-01T12:00:00Z"),
    ("timezone", Json.str "UTC"),
    ("timeline", Json.arr [])]

/-- A one-action template. -/
def T5 : Template :=
  Template.mk "T" "D" [[("relativeTime", Json.num 0), ("action", Json.str "Go")]]

/-- What generate_event builds from T5 at clock 0 with a 2-minute offset. -/
def EV5 : Json :=
  Json.obj [
    ("title", Json.str "T"), ("description", Json.str "D"),
    ("startTime", Json.str "1970-01-01T00:02:00Z"),
    ("timezone", Json.str "America/Denver"),
    ("timeline", Json.arr [Json.obj [
      ("id", Json.str "action-1"),
      ("time", Json.str "1970-01-01T00:02:00Z"),
      ("action", Json.str "Go"),
      ("audioAnnounce", Json.bool true),
      ("announceActionName", Json.bool true),
      ("relativeTime", Json.num 0)]])]

/-- A two-action template with non-decreasing relativeTime. -/
def T6 : Template :=
  Template.mk "T" "D"
    [[("relativeTime", Json.num 0), ("action", Json.str "A")],
     [("relativeTime", Json.num 20), ("action", Json.str "B")]]

/-- A template carrying a negative relativeTime, which the spec says the
Builder must reject. -/
def negTemplate : Template :=
  Template.mk "Negative" "One action five seconds before the start."
    [[("relativeTime", Json.num (-5)), ("action", Json.str "Step back")]]

/-- A template whose action dicts smuggle in equal "id" keys; the ** spread
overwrites the generated ids with them. -/
def dupIdTemplate : Template :=
  Template.mk "Duplicate" "Two actions carrying the same id key."
    [[("relativeTime", Json.num 0), ("action", Json.str "A"),
      ("id", Json.str "dup")],
     [("relativeTime", Json.num 1), ("action", Json.str "B"),
      ("id", Json.str "dup")]]

theorem decDigitsAux_eq (fuel n : Nat) (acc : List Char) (h : n < fuel) :
    decDigitsAux fuel n acc = digitsRec n ++ acc := by
  induction fuel generalizing n acc with
  | zero => omega
  | succ f ih =>
    rw [decDigitsAux]
    by_cases h10 : n < 10
    · rw [digitsRec]
      simp only [dif_pos h10, if_pos h10, Nat.mod_eq_of_lt h10]
      rfl
    · have hdiv : n / 10 < f := by
        have := Nat.div_lt_self (n := n) (by omega) (by omega : 1 < 10)
        omega
      rw [digitsRec]
      simp only [h10, if_false, dif_neg h10]
      rw [ih _ _ hdiv]
      simp

theorem decDigits_eq (n : Nat) : decDigits n = digitsRec n := by
  rw [decDigits, decDigitsAux_eq _ _ _ (by omega)]
  simp

example : decDigits 0 = ['0'] := by decide

example : decDigits 2026 = ['2', '0', '2', '6'] := by decide

example : serInt (-15) = ['-', '1', '5'] := by decide

example : jsonDumps (.obj [("a", .num 1), ("b", .arr [.bool true, .null])]) =
    "\x7b\"a\":1,\"b\":[true,null]\x7d" := by decide

example : jsonLoads "\x7b\"a\":1,\"b\":[true,null]\x7d" =
    some (.obj [("a", .num 1), ("b", .arr [.bool true, .null])]) := rfl

example : jsonLoads "\x7b\"a\":\\u00e9\"\x7d" = none := rfl

example : jsonLoads "\"\\ud83c\\udf89\"" = some (.str "🎉") := rfl

/-! ## Character facts -/
theorem char_toNat_lt (c : Char) : c.toNat < 1114112 := by
  have h : Nat.isValidChar c.toNat := c.valid
  rcases h with h | h
  · omega
  · omega

theorem char_not_surrogate (c : Char) : ¬ (55296 ≤ c.toNat ∧ c.toNat < 57344) := by
  have h : Nat.isValidChar c.toNat := c.valid
  rcases h with h | h
  · omega
  · omega

theorem char_eq_of_toNat_eq {c d : Char} (h : c.toNat = d.toNat) : c = d := by
  exact Char.eq_of_val_eq (UInt32.toNat.inj h)

theorem toNat_ofNat_valid {k : Nat} (h : Nat.isValidChar k) :
    (Char.ofNat k).toNat = k := by
  simp only [Char.ofNat, h, dite_true, Char.ofNatAux, Char.toNat, UInt32.toNat,
    UInt32.ofNatCore, BitVec.toNat_ofNatLt]

/-! ## String escaping round trip -/
theorem hexVal_hexChar {k : Nat} (h : k < 16) : hexVal (hexChar k) = some k := by
  interval_cases k <;> decide

theorem hex4_recompose {v : Nat} (h : v < 65536) :
    4096 * (v / 4096 % 16) + 256 * (v / 256 % 16) + 16 * (v / 16 % 16) + v % 16 = v := by
  omega

theorem bind_cons_eq_map (o : Option (List Char × List Char)) (c : Char) :
    (o.bind fun p => some (c :: p.1, p.2)) = o.map fun p => (c :: p.1, p.2) := by
  cases o <;> rfl

/-- A u-escape of four hex digits outside the surrogate ranges decodes to
the denoted code point. -/
theorem pEscUnit_u4 (a b c3 d : Nat) (ha : a < 16) (hb : b < 16) (hc3 : c3 < 16)
    (hd : d < 16)
    (hs1 : ¬ (55296 ≤ 4096 * a + 256 * b + 16 * c3 + d ∧
      4096 * a + 256 * b + 16 * c3 + d < 56320))
    (hs2 : ¬ (56320 ≤ 4096 * a + 256 * b + 16 * c3 + d ∧
      4096 * a + 256 * b + 16 * c3 + d < 57344))
    (rest3 : List Char) :
    pEscUnit ('u' :: hexChar a :: hexChar b :: hexChar c3 :: hexChar d :: rest3) =
      some (Char.ofNat (4096 * a + 256 * b + 16 * c3 + d), rest3) := by
  simp only [pEscUnit, eq_self_iff_true, if_true]
  rw [hexVal_hexChar ha]
  simp only [Option.some_bind]
  rw [hexVal_hexChar hb]
  simp only [Option.some_bind]
  rw [hexVal_hexChar hc3]
  simp only [Option.some_bind]
  rw [hexVal_hexChar hd]
  simp only [Option.some_bind]
  rw [if_neg hs1, if_neg hs2]

/-- A high surrogate u-escape followed by a low surrogate u-escape decodes
to the combined astral code point. -/
theorem pEscUnit_uSurr (a b c3 d a2 b2 c4 d2 : Nat)
    (ha : a < 16) (hb : b < 16) (hc3 : c3 < 16) (hd : d < 16)
    (ha2 : a2 < 16) (hb2 : b2 < 16) (hc4 : c4 < 16) (hd2 : d2 < 16)
    (hs1 : 55296 ≤ 4096 * a + 256 * b + 16 * c3 + d ∧
      4096 * a + 256 * b + 16 * c3 + d < 56320)
    (hs2 : 56320 ≤ 4096 * a2 + 256 * b2 + 16 * c4 + d2 ∧
      4096 * a2 + 256 * b2 + 16 * c4 + d2 < 57344)
    (rest4 : List Char) :
    pEscUnit ('u' :: hexChar a :: hexChar b :: hexChar c3 :: hexChar d ::
      '\\' :: 'u' :: hexChar a2 :: hexChar b2 :: hexChar c4 :: hexChar d2 :: rest4) =
      some (Char.ofNat (65536 +
        1024 * (4096 * a + 256 * b + 16 * c3 + d - 55296) +
        (4096 * a2 + 256 * b2 + 16 * c4 + d2 - 56320)), rest4) := by
  simp only [pEscUnit, eq_self_iff_true, and_self, if_true]
  rw [hexVal_hexChar ha]
  simp only [Option.some_bind]
  rw [hexVal_hexChar hb]
  simp only [Option.some_bind]
  rw [hexVal_hexChar hc3]
  simp only [Option.some_bind]
  rw [hexVal_hexChar hd]
  simp only [Option.some_bind]
  rw [if_pos hs1]
  rw [hexVal_hexChar ha2]
  simp only [Option.some_bind]
  rw [hexVal_hexChar hb2]
  simp only [Option.some_bind]
  rw [hexVal_hexChar hc4]
  simp only [Option.some_bind]
  rw [hexVal_hexChar hd2]
  simp only [Option.some_bind]
  rw [if_pos hs2]

/-- Unfolding of pStrChars on positive fuel and a cons cell. -/
theorem pStrChars_succ_cons (f : Nat) (c : Char) (rest : List Char) :
    pStrChars (f + 1) (c :: rest) =
      (if c = '"' then some ([], rest)
       else if c = '\\' then
         Option.bind (pEscUnit rest) fun q =>
         Option.bind (pStrChars f q.2) fun p =>
         some (q.1 :: p.1, p.2)
       else if c.toNat < 32 then none
       else
         Option.bind (pStrChars f rest) fun p =>
         some (c :: p.1, p.2)) := rfl

/-- Scanning the escape of one character prepends exactly that character
and costs one unit of fuel. -/
theorem pStrChars_escChar (f : Nat) (c : Char) (tail : List Char) :
    pStrChars (f + 1) (escChar c ++ tail) =
      Option.bind (pStrChars f tail) fun p => some (c :: p.1, p.2) := by
  by_cases h1 : c = '"'
  · subst h1
    rw [show escChar '"' ++ tail = '\\' :: '"' :: tail from rfl]
    rw [pStrChars_succ_cons, if_neg (by decide : ¬ ('\\' : Char) = '"'),
      if_pos (rfl : ('\\' : Char) = '\\')]
    rw [show pEscUnit ('"' :: tail) = some ('"', tail) from rfl]
    simp only [Option.some_bind]
  · by_cases h2 : c = '\\'
    · subst h2
      rw [show escChar '\\' ++ tail = '\\' :: '\\' :: tail from rfl]
      rw [pStrChars_succ_cons, if_neg (by decide : ¬ ('\\' : Char) = '"'),
        if_pos (rfl : ('\\' : Char) = '\\')]
      rw [show pEscUnit ('\\' :: tail) = some ('\\', tail) from rfl]
      simp only [Option.some_bind]
    · by_cases h3 : 32 ≤ c.toNat ∧ c.toNat ≤ 126
      · unfold escChar
        rw [if_neg h1, if_neg h2, if_pos h3]
        simp only [List.cons_append, List.nil_append]
        rw [pStrChars_succ_cons, if_neg h1, if_neg h2, if_neg (by omega : ¬ c.toNat < 32)]
      · by_cases h8 : c.toNat = 8
        · have hc : c = Char.ofNat 8 := char_eq_of_toNat_eq (by
            rw [h8, toNat_ofNat_valid (by left; omega)])
          rw [hc]
          rw [show escChar (Char.ofNat 8) ++ tail = '\\' :: 'b' :: tail from rfl]
          rw [pStrChars_succ_cons, if_neg (by decide : ¬ ('\\' : Char) = '"'),
            if_pos (rfl : ('\\' : Char) = '\\')]
          rw [show pEscUnit ('b' :: tail) = some (Char.ofNat 8, tail) from rfl]
          simp only [Option.some_bind]
        · by_cases h9 : c.toNat = 9
          · have hc : c = Char.ofNat 9 := char_eq_of_toNat_eq (by
              rw [h9, toNat_ofNat_valid (by left; omega)])
            rw [hc]
            rw [show escChar (Char.ofNat 9) ++ tail = '\\' :: 't' :: tail from rfl]
            rw [pStrChars_succ_cons, if_neg (by decide : ¬ ('\\' : Char) = '"'),
              if_pos (rfl : ('\\' : Char) = '\\')]
            rw [show pEscUnit ('t' :: tail) = some (Char.ofNat 9, tail) from rfl]
            simp only [Option.some_bind]
          · by_cases h10 : c.toNat = 10
            · have hc : c = Char.ofNat 10 := char_eq_of_toNat_eq (by
                rw [h10, toNat_ofNat_valid (by left; omega)])
              rw [hc]
              rw [show escChar (Char.ofNat 10) ++ tail = '\\' :: 'n' :: tail from rfl]
              rw [pStrChars_succ_cons, if_neg (by decide : ¬ ('\\' : Char) = '"'),
                if_pos (rfl : ('\\' : Char) = '\\')]
              rw [show pEscUnit ('n' :: tail) = some (Char.ofNat 10, tail) from rfl]
              simp only [Option.some_bind]
            · by_cases h12 : c.toNat = 12
              · have hc : c = Char.ofNat 12 := char_eq_of_toNat_eq (by
                  rw [h12, toNat_ofNat_valid (by left; omega)])
                rw [hc]
                rw [show escChar (Char.ofNat 12) ++ tail = '\\' :: 'f' :: tail from rfl]
                rw [pStrChars_succ_cons, if_neg (by decide : ¬ ('\\' : Char) = '"'),
                  if_pos (rfl : ('\\' : Char) = '\\')]
                rw [show pEscUnit ('f' :: tail) = some (Char.ofNat 12, tail) from rfl]
                simp only [Option.some_bind]
              · by_cases h13 : c.toNat = 13
                · have hc : c = Char.ofNat 13 := char_eq_of_toNat_eq (by
                    rw [h13, toNat_ofNat_valid (by left; omega)])
                  rw [hc]
                  rw [show escChar (Char.ofNat 13) ++ tail = '\\' :: 'r' :: tail from rfl]
                  rw [pStrChars_succ_cons, if_neg (by decide : ¬ ('\\' : Char) = '"'),
                    if_pos (rfl : ('\\' : Char) = '\\')]
                  rw [show pEscUnit ('r' :: tail) = some (Char.ofNat 13, tail) from rfl]
                  simp only [Option.some_bind]
                · by_cases hbmp : c.toNat < 65536
                  · have hns := char_not_surrogate c
                    unfold escChar
                    rw [if_neg h1, if_neg h2, if_neg h3, if_neg h8, if_neg h9, if_neg h10,
                      if_neg h12, if_neg h13, if_pos hbmp]
                    simp only [hex4, List.cons_append, List.nil_append, List.append_assoc]
                    rw [pStrChars_succ_cons, if_neg (by decide : ¬ ('\\' : Char) = '"'),
                      if_pos (rfl : ('\\' : Char) = '\\')]
                    rw [pEscUnit_u4 _ _ _ _ (by omega) (by omega) (by omega) (by omega)
                      (by omega) (by omega) tail]
                    rw [hex4_recompose hbmp, Char.ofNat_toNat]
                    simp only [Option.some_bind]
                  · have hlt := char_toNat_lt c
                    have hhi : 4096 * ((55296 + (c.toNat - 65536) / 1024) / 4096 % 16) +
                        256 * ((55296 + (c.toNat - 65536) / 1024) / 256 % 16) +
                        16 * ((55296 + (c.toNat - 65536) / 1024) / 16 % 16) +
                        (55296 + (c.toNat - 65536) / 1024) % 16 =
                        55296 + (c.toNat - 65536) / 1024 := hex4_recompose (by omega)
                    have hlo : 4096 * ((56320 + (c.toNat - 65536) % 1024) / 4096 % 16) +
                        256 * ((56320 + (c.toNat - 65536) % 1024) / 256 % 16) +
                        16 * ((56320 + (c.toNat - 65536) % 1024) / 16 % 16) +
                        (56320 + (c.toNat - 65536) % 1024) % 16 =
                        56320 + (c.toNat - 65536) % 1024 := hex4_recompose (by omega)
                    unfold escChar
                    rw [if_neg h1, if_neg h2, if_neg h3, if_neg h8, if_neg h9, if_neg h10,
                      if_neg h12, if_neg h13, if_neg hbmp]
                    simp only [hex4, List.cons_append, List.nil_append, List.append_assoc]
                    rw [pStrChars_succ_cons, if_neg (by decide : ¬ ('\\' : Char) = '"'),
                      if_pos (rfl : ('\\' : Char) = '\\')]
                    rw [pEscUnit_uSurr _ _ _ _ _ _ _ _ (by omega) (by omega) (by omega)
                      (by omega) (by omega) (by omega) (by omega) (by omega)
                      (by rw [hhi]; omega) (by rw [hlo]; omega) tail]
                    rw [hhi, hlo]
                    rw [show 65536 + 1024 * (55296 + (c.toNat - 65536) / 1024 - 55296) +
                      (56320 + (c.toNat - 65536) % 1024 - 56320) = c.toNat from by omega]
                    rw [Char.ofNat_toNat]
                    simp only [Option.some_bind]

/-- Scanning the serialized body of a string recovers exactly its
characters and stops at the closing quote; any fuel above the number of
source characters suffices. -/
theorem pStrChars_flat (s : List Char) :
    ∀ (f : Nat) (rest : List Char), s.length < f →
      pStrChars f (s.flatMap escChar ++ '"' :: rest) = some (s, rest) := by
  induction s with
  | nil =>
      intro f rest hf
      match f, hf with
      | f + 1, _ => rfl
  | cons c s ih =>
      intro f rest hf
      match f, hf with
      | f + 1, hf =>
        rw [List.flatMap_cons, List.append_assoc, pStrChars_escChar,
          ih f rest (by simp at hf; omega)]
        rfl

/-! ## Number parsing round trip -/
theorem digitsRec_head (n : Nat) :
    ∃ d ds, digitsRec n = d :: ds ∧ isDig d = true := by
  induction n using Nat.strong_induction_on with
  | _ n ih =>
    rw [digitsRec]
    by_cases h : n < 10
    · refine ⟨Char.ofNat (48 + n), [], by simp [h], ?_⟩
      have hv : (Char.ofNat (48 + n)).toNat = 48 + n :=
        toNat_ofNat_valid (by left; omega)
      simp [isDig, hv]
      omega
    · obtain ⟨d, ds, hd, hdig⟩ := ih (n / 10) (Nat.div_lt_self (by omega) (by omega))
      exact ⟨d, ds ++ [Char.ofNat (48 + n % 10)], by simp [h, hd], hdig⟩

theorem digitsRec_ne_nil (n : Nat) : digitsRec n ≠ [] := by
  obtain ⟨d, ds, hd, _⟩ := digitsRec_head n
  simp [hd]

theorem readDigitsAux_stop (acc : Nat) (rest : List Char)
    (h : headNotDigit rest = true) : readDigitsAux acc rest = (acc, rest) := by
  cases rest with
  | nil => rfl
  | cons c cs =>
    have hc : isDig c = false := by
      simp [headNotDigit] at h
      exact h
    simp [readDigitsAux, hc]

theorem readDigitsAux_digitsRec (n : Nat) : ∀ (acc : Nat) (rest : List Char),
    readDigitsAux acc (digitsRec n ++ rest) =
      readDigitsAux (acc * 10 ^ (digitsRec n).length + n) rest := by
  induction n using Nat.strong_induction_on with
  | _ n ih =>
    intro acc rest
    by_cases h : n < 10
    · rw [digitsRec]
      simp only [dif_pos h, List.cons_append, List.nil_append, List.length_cons,
        List.length_nil]
      have hv : (Char.ofNat (48 + n)).toNat = 48 + n :=
        toNat_ofNat_valid (by left; omega)
      have hdig : isDig (Char.ofNat (48 + n)) = true := by
        simp [isDig, hv]
        omega
      simp only [readDigitsAux, hdig, if_true, hv, pow_one]
      have h5 : acc * 10 + (48 + n - 48) = acc * 10 + n := by omega
      rw [h5]
      norm_num
    · have hstep : digitsRec n = digitsRec (n / 10) ++ [Char.ofNat (48 + n % 10)] := by
        rw [digitsRec]
        simp [h]
      rw [hstep, List.append_assoc,
        ih (n / 10) (Nat.div_lt_self (by omega) (by omega))]
      simp only [List.cons_append, List.nil_append]
      have hv : (Char.ofNat (48 + n % 10)).toNat = 48 + n % 10 :=
        toNat_ofNat_valid (by left; omega)
      have hdig : isDig (Char.ofNat (48 + n % 10)) = true := by
        simp [isDig, hv]
        omega
      simp only [readDigitsAux, hdig, if_true, hv, List.length_append,
        List.length_cons, List.length_nil]
      have harith : (acc * 10 ^ (digitsRec (n / 10)).length + n / 10) * 10 +
          (48 + n % 10 - 48) =
          acc * 10 ^ ((digitsRec (n / 10)).length + (0 + 1)) + n := by
        have h3 : n / 10 * 10 + n % 10 = n := by omega
        have h4 : 48 + n % 10 - 48 = n % 10 := by omega
        rw [h4]
        calc (acc * 10 ^ (digitsRec (n / 10)).length + n / 10) * 10 + n % 10
            = acc * (10 ^ (digitsRec (n / 10)).length * 10) +
              (n / 10 * 10 + n % 10) := by ring
          _ = acc * 10 ^ ((digitsRec (n / 10)).length + (0 + 1)) + n := by
              rw [h3, pow_succ]
      rw [harith]

theorem isDig_facts {d : Char} (h : isDig d = true) :
    d ≠ '"' ∧ d ≠ 't' ∧ d ≠ 'f' ∧ d ≠ 'n' ∧ d ≠ '[' ∧ d ≠ '{' ∧ d ≠ '-' := by
  have hv : 48 ≤ d.toNat ∧ d.toNat ≤ 57 := by
    simp [isDig] at h
    omega
  refine ⟨?_, ?_, ?_, ?_, ?_, ?_, ?_⟩ <;>
    (intro hEq; rw [hEq] at hv; revert hv; decide)

/-- Parsing the decimal rendering of an integer recovers it. -/
theorem parseNum_serInt (n : Int) (rest : List Char)
    (h : headNotDigit rest = true) :
    parseNum (serInt n ++ rest) = some (n, rest) := by
  cases n with
  | ofNat m =>
    show parseNum (decDigits m ++ rest) = _
    rw [decDigits_eq]
    obtain ⟨d, ds, hd, hdig⟩ := digitsRec_head m
    obtain ⟨_, _, _, _, _, _, hminus⟩ := isDig_facts hdig
    rw [hd]
    simp only [List.cons_append, parseNum, if_neg hminus, hdig, if_true]
    rw [show d :: (ds ++ rest) = (d :: ds) ++ rest from rfl, ← hd,
      readDigitsAux_digitsRec]
    rw [readDigitsAux_stop _ _ h]
    simp
  | negSucc m =>
    show parseNum ('-' :: (decDigits (m + 1) ++ rest)) = _
    rw [decDigits_eq]
    obtain ⟨d, ds, hd, hdig⟩ := digitsRec_head (m + 1)
    rw [hd]
    simp only [List.cons_append, parseNum, if_pos rfl, hdig, if_true]
    rw [show d :: (ds ++ rest) = (d :: ds) ++ rest from rfl, ← hd,
      readDigitsAux_digitsRec]
    rw [readDigitsAux_stop _ _ h]
    simp only [Option.some.injEq, Prod.mk.injEq, and_true]
    rw [zero_mul, zero_add]
    rw [Int.negSucc_eq]
    push_cast
    ring

theorem sizeJ_pos (j : Json) : 1 ≤ sizeJ j := by
  cases j <;> simp [sizeJ]

theorem string_mk_data (s : String) : String.mk s.data = s := rfl

theorem escChar_length_pos (c : Char) : 0 < (escChar c).length := by
  unfold escChar
  split_ifs <;> simp [hex4]

theorem length_le_flatMap_escChar (s : List Char) :
    s.length ≤ (s.flatMap escChar).length := by
  induction s with
  | nil => simp
  | cons c cs ih =>
    rw [List.flatMap_cons, List.length_append, List.length_cons]
    have := escChar_length_pos c
    omega

/-- The first character of a serialized value is never a closing bracket
or brace. -/
theorem serJson_head (j : Json) :
    ∃ d ds, serJson j = d :: ds ∧ d ≠ ']' ∧ d ≠ '}' := by
  cases j with
  | null => exact ⟨'n', _, rfl, by decide, by decide⟩
  | bool b =>
    cases b with
    | true => exact ⟨'t', _, rfl, by decide, by decide⟩
    | false => exact ⟨'f', _, rfl, by decide, by decide⟩
  | num n =>
    cases n with
    | ofNat m =>
      obtain ⟨d, ds, hd, hdig⟩ := digitsRec_head m
      refine ⟨d, ds, ?_, ?_, ?_⟩
      · show decDigits m = d :: ds
        rw [decDigits_eq, hd]
      · intro hEq
        rw [hEq] at hdig
        revert hdig
        decide
      · intro hEq
        rw [hEq] at hdig
        revert hdig
        decide
    | negSucc m => exact ⟨'-', decDigits (m + 1), rfl, by decide, by decide⟩
  | str s => exact ⟨'"', _, rfl, by decide, by decide⟩
  | arr xs => exact ⟨'[', _, rfl, by decide, by decide⟩
  | obj xs => exact ⟨'{', _, rfl, by decide, by decide⟩

/-! ## Parser unfolding lemmas -/
theorem parseVal_succ_cons (f : Nat) (c : Char) (cs : List Char) :
    parseVal (f + 1) (c :: cs) =
      (if c = '"' then
        Option.bind (pStrChars (cs.length + 1) cs) fun p =>
        some (.str (String.mk p.1), p.2)
      else if c = 't' then
        match cs with
        | 'r' :: 'u' :: 'e' :: rest => some (.bool true, rest)
        | _ => none
      else if c = 'f' then
        match cs with
        | 'a' :: 'l' :: 's' :: 'e' :: rest => some (.bool false, rest)
        | _ => none
      else if c = 'n' then
        match cs with
        | 'u' :: 'l' :: 'l' :: rest => some (.null, rest)
        | _ => none
      else if c = '[' then
        match cs with
        | [] => none
        | d :: ds =>
          if d = ']' then some (.arr [], ds)
          else
            Option.bind (parseElems f (d :: ds)) fun p =>
            some (.arr p.1, p.2)
      else if c = '{' then
        match cs with
        | [] => none
        | d :: ds =>
          if d = '}' then some (.obj [], ds)
          else
            Option.bind (parseMembers f (d :: ds)) fun p =>
            some (.obj p.1, p.2)
      else
        Option.bind (parseNum (c :: cs)) fun p =>
        some (.num p.1, p.2)) := rfl

theorem parseElems_succ (f : Nat) (cs : List Char) :
    parseElems (f + 1) cs =
      (Option.bind (parseVal f cs) fun p =>
        match p.2 with
        | ',' :: rest =>
            Option.bind (parseElems f rest) fun q =>
            some (p.1 :: q.1, q.2)
        | ']' :: rest => some ([p.1], rest)
        | _ => none) := rfl

theorem parseMembers_succ (f : Nat) (cs : List Char) :
    parseMembers (f + 1) cs =
      (match cs with
       | '"' :: cs2 =>
           Option.bind (pStrChars (cs2.length + 1) cs2) fun k =>
           match k.2 with
           | ':' :: cs3 =>
               Option.bind (parseVal f cs3) fun p =>
               match p.2 with
               | ',' :: rest =>
                   Option.bind (parseMembers f rest) fun q =>
                   some ((String.mk k.1, p.1) :: q.1, q.2)
               | '}' :: rest => some ([(String.mk k.1, p.1)], rest)
               | _ => none
           | _ => none
       | _ => none) := rfl

/-! ## Parser round trip -/
/-- The parser inverts the serializer; one strong induction over the node
count covers values, array tails and object tails simultaneously. -/
theorem parse_ser_all (N : Nat) :
    (∀ j, sizeJ j ≤ N → ∀ f rest, sizeJ j < f → headNotDigit rest = true →
      parseVal f (serJson j ++ rest) = some (j, rest)) ∧
    (∀ x xs, sizeA (x :: xs) ≤ N → ∀ f rest, sizeA (x :: xs) < f →
      headNotDigit rest = true →
      parseElems f (serArr (x :: xs) ++ ']' :: rest) = some (x :: xs, rest)) ∧
    (∀ k v ms, sizeO ((k, v) :: ms) ≤ N → ∀ f rest, sizeO ((k, v) :: ms) < f →
      headNotDigit rest = true →
      parseMembers f (serObj ((k, v) :: ms) ++ '}' :: rest) =
        some ((k, v) :: ms, rest)) := by
  induction N using Nat.strong_induction_on with
  | _ N ih =>
    refine ⟨?_, ?_, ?_⟩
    · intro j hN f rest hf hrest
      obtain ⟨f, rfl⟩ : ∃ f1, f = f1 + 1 := ⟨f - 1, by omega⟩
      cases j with
      | null =>
        rw [show serJson .null ++ rest = 'n' :: 'u' :: 'l' :: 'l' :: rest from rfl]
        rw [parseVal_succ_cons,
          if_neg (by decide : ¬ ('n' : Char) = '"'),
          if_neg (by decide : ¬ ('n' : Char) = 't'),
          if_neg (by decide : ¬ ('n' : Char) = 'f'),
          if_pos (rfl : ('n' : Char) = 'n')]
        simp only []
      | bool b =>
        cases b with
        | true =>
          rw [show serJson (.bool true) ++ rest = 't' :: 'r' :: 'u' :: 'e' :: rest from rfl]
          rw [parseVal_succ_cons,
            if_neg (by decide : ¬ ('t' : Char) = '"'),
            if_pos (rfl : ('t' : Char) = 't')]
          simp only []
        | false =>
          rw [show serJson (.bool false) ++ rest =
            'f' :: 'a' :: 'l' :: 's' :: 'e' :: rest from rfl]
          rw [parseVal_succ_cons,
            if_neg (by decide : ¬ ('f' : Char) = '"'),
            if_neg (by decide : ¬ ('f' : Char) = 't'),
            if_pos (rfl : ('f' : Char) = 'f')]
          simp only []
      | num n =>
        cases n with
        | ofNat m =>
          rw [show serJson (.num (Int.ofNat m)) ++ rest = decDigits m ++ rest from rfl]
          rw [decDigits_eq]
          obtain ⟨d, ds, hd, hdig⟩ := digitsRec_head m
          obtain ⟨hq, ht, hf2, hn, hlb, hlc, hminus⟩ := isDig_facts hdig
          rw [hd]
          simp only [List.cons_append]
          rw [parseVal_succ_cons, if_neg hq, if_neg ht, if_neg hf2, if_neg hn,
            if_neg hlb, if_neg hlc]
          rw [show d :: (ds ++ rest) = (d :: ds) ++ rest from rfl, ← hd, ← decDigits_eq]
          rw [show decDigits m ++ rest = serInt (Int.ofNat m) ++ rest from rfl]
          rw [parseNum_serInt _ _ hrest]
          simp only [Option.some_bind]
        | negSucc m =>
          rw [show serJson (.num (Int.negSucc m)) ++ rest =
            '-' :: (decDigits (m + 1) ++ rest) from rfl]
          rw [parseVal_succ_cons,
            if_neg (by decide : ¬ ('-' : Char) = '"'),
            if_neg (by decide : ¬ ('-' : Char) = 't'),
            if_neg (by decide : ¬ ('-' : Char) = 'f'),
            if_neg (by decide : ¬ ('-' : Char) = 'n'),
            if_neg (by decide : ¬ ('-' : Char) = '['),
            if_neg (by decide : ¬ ('-' : Char) = '{')]
          rw [show '-' :: (decDigits (m + 1) ++ rest) =
            serInt (Int.negSucc m) ++ rest from rfl]
          rw [parseNum_serInt _ _ hrest]
          simp only [Option.some_bind]
      | str s =>
        rw [show serJson (.str s) = '"' :: (s.data.flatMap escChar ++ ['"']) from rfl]
        simp only [List.cons_append, List.append_assoc, List.singleton_append,
              List.nil_append]
        rw [parseVal_succ_cons, if_pos (rfl : ('"' : Char) = '"')]
        rw [pStrChars_flat s.data _ _ (by
          have := length_le_flatMap_escChar s.data
          simp only [List.length_append, List.length_cons]
          omega)]
        simp only [Option.some_bind, string_mk_data, List.nil_append]
      | arr xs =>
        cases xs with
        | nil =>
          rw [show serJson (.arr []) ++ rest = '[' :: ']' :: rest from rfl]
          rw [parseVal_succ_cons,
            if_neg (by decide : ¬ ('[' : Char) = '"'),
            if_neg (by decide : ¬ ('[' : Char) = 't'),
            if_neg (by decide : ¬ ('[' : Char) = 'f'),
            if_neg (by decide : ¬ ('[' : Char) = 'n'),
            if_pos (rfl : ('[' : Char) = '[')]
          simp
        | cons x xs2 =>
          have hsz : sizeA (x :: xs2) < f := by
            have : sizeJ (.arr (x :: xs2)) = 1 + sizeA (x :: xs2) := rfl
            omega
          obtain ⟨d, ds, hd, hne1, hne2⟩ := serJson_head x
          cases xs2 with
          | nil =>
            rw [show serJson (.arr [x]) = '[' :: (serJson x ++ [']']) from rfl]
            simp only [List.cons_append, List.append_assoc, List.singleton_append,
              List.nil_append]
            rw [parseVal_succ_cons,
              if_neg (by decide : ¬ ('[' : Char) = '"'),
              if_neg (by decide : ¬ ('[' : Char) = 't'),
              if_neg (by decide : ¬ ('[' : Char) = 'f'),
              if_neg (by decide : ¬ ('[' : Char) = 'n'),
              if_pos (rfl : ('[' : Char) = '[')]
            rw [hd]
            simp only [List.cons_append]
            rw [if_neg hne1]
            rw [show d :: (ds ++ ']' :: rest) = (d :: ds) ++ ']' :: rest from rfl, ← hd]
            rw [show serJson x ++ ']' :: rest = serArr [x] ++ ']' :: rest from rfl]
            rw [(ih (sizeA [x]) (by have h0 : sizeJ (Json.arr [x]) = 1 + sizeA [x] := rfl; omega)).2.1
            x [] (le_refl _) f rest hsz hrest]
            simp only [Option.some_bind]
          | cons y ys =>
            rw [show serJson (.arr (x :: y :: ys)) =
              '[' :: (serJson x ++ ',' :: serArr (y :: ys) ++ [']']) from rfl]
            simp only [List.cons_append, List.append_assoc, List.singleton_append,
              List.nil_append]
            rw [parseVal_succ_cons,
              if_neg (by decide : ¬ ('[' : Char) = '"'),
              if_neg (by decide : ¬ ('[' : Char) = 't'),
              if_neg (by decide : ¬ ('[' : Char) = 'f'),
              if_neg (by decide : ¬ ('[' : Char) = 'n'),
              if_pos (rfl : ('[' : Char) = '[')]
            rw [hd]
            simp only [List.cons_append]
            rw [if_neg hne1]
            rw [show d :: (ds ++ (',' :: (serArr (y :: ys) ++ ']' :: rest))) =
              (d :: ds) ++ ',' :: serArr (y :: ys) ++ ']' :: rest from by simp, ← hd]
            rw [show serJson x ++ ',' :: serArr (y :: ys) ++ ']' :: rest =
              serArr (x :: y :: ys) ++ ']' :: rest from by
                rw [show serArr (x :: y :: ys) =
                  serJson x ++ ',' :: serArr (y :: ys) from rfl]]
            rw [(ih (sizeA (x :: y :: ys)) (by
            have h0 : sizeJ (Json.arr (x :: y :: ys)) = 1 + sizeA (x :: y :: ys) := rfl
            omega)).2.1 x (y :: ys) (le_refl _) f rest hsz hrest]
            simp only [Option.some_bind]
      | obj xs =>
        cases xs with
        | nil =>
          rw [show serJson (.obj []) ++ rest = '{' :: '}' :: rest from rfl]
          rw [parseVal_succ_cons,
            if_neg (by decide : ¬ ('{' : Char) = '"'),
            if_neg (by decide : ¬ ('{' : Char) = 't'),
            if_neg (by decide : ¬ ('{' : Char) = 'f'),
            if_neg (by decide : ¬ ('{' : Char) = 'n'),
            if_neg (by decide : ¬ ('{' : Char) = '['),
            if_pos (rfl : ('{' : Char) = '{')]
          simp
        | cons m ms =>
          obtain ⟨k, v⟩ := m
          have hsz : sizeO ((k, v) :: ms) < f := by
            have : sizeJ (.obj ((k, v) :: ms)) = 1 + sizeO ((k, v) :: ms) := rfl
            omega
          have hobj : serJson (.obj ((k, v) :: ms)) ++ rest =
              '{' :: (serObj ((k, v) :: ms) ++ '}' :: rest) := by
            rw [show serJson (.obj ((k, v) :: ms)) =
              '{' :: (serObj ((k, v) :: ms) ++ ['}']) from rfl]
            simp
          rw [hobj]
          rw [parseVal_succ_cons,
            if_neg (by decide : ¬ ('{' : Char) = '"'),
            if_neg (by decide : ¬ ('{' : Char) = 't'),
            if_neg (by decide : ¬ ('{' : Char) = 'f'),
            if_neg (by decide : ¬ ('{' : Char) = 'n'),
            if_neg (by decide : ¬ ('{' : Char) = '['),
            if_pos (rfl : ('{' : Char) = '{')]
          have hcons : ∃ t, serObj ((k, v) :: ms) ++ '}' :: rest = '"' :: t := by
            cases ms with
            | nil =>
              refine ⟨(k.data.flatMap escChar ++ ['"']) ++ ':' :: serJson v ++
                '}' :: rest, ?_⟩
              rw [show serObj [(k, v)] =
                ('"' :: (k.data.flatMap escChar ++ ['"'])) ++ ':' :: serJson v from rfl]
              simp
            | cons m2 ms2 =>
              refine ⟨(k.data.flatMap escChar ++ ['"']) ++ ':' :: serJson v ++
                ',' :: serObj (m2 :: ms2) ++ '}' :: rest, ?_⟩
              rw [show serObj ((k, v) :: m2 :: ms2) =
                ('"' :: (k.data.flatMap escChar ++ ['"'])) ++ ':' :: serJson v ++
                  ',' :: serObj (m2 :: ms2) from rfl]
              simp
          obtain ⟨t, ht⟩ := hcons
          rw [ht]
          simp only []
          rw [if_neg (by decide : ¬ ('"' : Char) = '}')]
          rw [← ht]
          rw [(ih (sizeO ((k, v) :: ms)) (by
            have h0 : sizeJ (Json.obj ((k, v) :: ms)) = 1 + sizeO ((k, v) :: ms) := rfl
            omega)).2.2 k v ms (le_refl _) f rest hsz hrest]
          simp only [Option.some_bind]
    · intro x xs hN f rest hf hrest
      obtain ⟨f, rfl⟩ : ∃ f1, f = f1 + 1 := ⟨f - 1, by omega⟩
      have hx1 := sizeJ_pos x
      cases xs with
      | nil =>
        have hszx : sizeJ x < f := by
          have : sizeA [x] = 1 + sizeJ x + 0 := rfl
          omega
        rw [parseElems_succ]
        rw [show serArr [x] = serJson x from rfl]
        rw [(ih (sizeJ x) (by
            have h0 : sizeA [x] = 1 + sizeJ x + sizeA ([] : List Json) := rfl
            have h1 : sizeA ([] : List Json) = 0 := rfl
            omega)).1 x (le_refl _) f (']' :: rest) hszx (by rfl)]
        simp only [Option.some_bind]
      | cons y ys =>
        have hsy := sizeJ_pos y
        have hszx : sizeJ x < f := by
          have : sizeA (x :: y :: ys) = 1 + sizeJ x + sizeA (y :: ys) := rfl
          have h2 : sizeA (y :: ys) = 1 + sizeJ y + sizeA ys := rfl
          omega
        have hszt : sizeA (y :: ys) < f := by
          have : sizeA (x :: y :: ys) = 1 + sizeJ x + sizeA (y :: ys) := rfl
          omega
        rw [parseElems_succ]
        rw [show serArr (x :: y :: ys) = serJson x ++ ',' :: serArr (y :: ys) from rfl]
        simp only [List.append_assoc, List.cons_append]
        rw [(ih (sizeJ x) (by
            have h0 : sizeA (x :: y :: ys) = 1 + sizeJ x + sizeA (y :: ys) := rfl
            omega)).1 x (le_refl _) f (',' :: (serArr (y :: ys) ++ ']' :: rest)) hszx (by rfl)]
        simp only [Option.some_bind]
        rw [(ih (sizeA (y :: ys)) (by
            have h0 : sizeA (x :: y :: ys) = 1 + sizeJ x + sizeA (y :: ys) := rfl
            have hp := sizeJ_pos x
            omega)).2.1 y ys (le_refl _) f rest hszt hrest]
        simp only [Option.some_bind]
    · intro k v ms hN f rest hf hrest
      obtain ⟨f, rfl⟩ : ∃ f1, f = f1 + 1 := ⟨f - 1, by omega⟩
      have hv1 := sizeJ_pos v
      have hszv : sizeJ v < f := by
        have : sizeO ((k, v) :: ms) = 1 + sizeJ v + sizeO ms := rfl
        omega
      rw [parseMembers_succ]
      cases ms with
      | nil =>
        rw [show serObj [(k, v)] ++ '}' :: rest =
          '"' :: (k.data.flatMap escChar ++ '"' :: (':' :: (serJson v ++ '}' :: rest)))
          from by
            rw [show serObj [(k, v)] =
              ('"' :: (k.data.flatMap escChar ++ ['"'])) ++ ':' :: serJson v from rfl]
            simp]
        simp only []
        rw [pStrChars_flat k.data _ _ (by
          have := length_le_flatMap_escChar k.data
          simp only [List.length_append, List.length_cons]
          omega)]
        simp only [Option.some_bind]
        rw [(ih (sizeJ v) (by
            have h0 : sizeO [(k, v)] = 1 + sizeJ v + sizeO ([] : List (String × Json)) := rfl
            have h1 : sizeO ([] : List (String × Json)) = 0 := rfl
            omega)).1 v (le_refl _) f ('}' :: rest) hszv (by rfl)]
        simp only [Option.some_bind, string_mk_data]
      | cons m2 ms2 =>
        obtain ⟨k2, v2⟩ := m2
        have hszt : sizeO ((k2, v2) :: ms2) < f := by
          have : sizeO ((k, v) :: (k2, v2) :: ms2) =
            1 + sizeJ v + sizeO ((k2, v2) :: ms2) := rfl
          omega
        rw [show serObj ((k, v) :: (k2, v2) :: ms2) ++ '}' :: rest =
          '"' :: (k.data.flatMap escChar ++ '"' :: (':' :: (serJson v ++
            ',' :: (serObj ((k2, v2) :: ms2) ++ '}' :: rest)))) from by
            rw [show serObj ((k, v) :: (k2, v2) :: ms2) =
              ('"' :: (k.data.flatMap escChar ++ ['"'])) ++ ':' :: serJson v ++
                ',' :: serObj ((k2, v2) :: ms2) from rfl]
            simp]
        simp only []
        rw [pStrChars_flat k.data _ _ (by
          have := length_le_flatMap_escChar k.data
          simp only [List.length_append, List.length_cons]
          omega)]
        simp only [Option.some_bind]
        rw [(ih (sizeJ v) (by
            have h0 : sizeO ((k, v) :: (k2, v2) :: ms2) = 1 + sizeJ v + sizeO ((k2, v2) :: ms2) := rfl
            omega)).1 v (le_refl _) f (',' :: (serObj ((k2, v2) :: ms2) ++ '}' :: rest)) hszv (by rfl)]
        simp only [Option.some_bind]
        rw [(ih (sizeO ((k2, v2) :: ms2)) (by
            have h0 : sizeO ((k, v) :: (k2, v2) :: ms2) = 1 + sizeJ v + sizeO ((k2, v2) :: ms2) := rfl
            have hp := sizeJ_pos v
            omega)).2.2 k2 v2 ms2 (le_refl _) f rest hszt hrest]
        simp only [Option.some_bind, string_mk_data]

/-- The parser inverts the serializer on one value, for any fuel above the
value size and any following text not starting with a digit. -/
theorem parseVal_ser (j : Json) (f : Nat) (rest : List Char)
    (hf : sizeJ j < f) (hrest : headNotDigit rest = true) :
    parseVal f (serJson j ++ rest) = some (j, rest) :=
  (parse_ser_all (sizeJ j)).1 j (le_refl _) f rest hf hrest

/-! ## Fuel bound: the node count is below the serialized length -/
theorem size_le_len_all (N : Nat) :
    (∀ j, sizeJ j ≤ N → sizeJ j ≤ (serJson j).length) ∧
    (∀ x xs, sizeA (x :: xs) ≤ N →
      sizeA (x :: xs) ≤ (serArr (x :: xs)).length + 1) ∧
    (∀ k v ms, sizeO ((k, v) :: ms) ≤ N →
      sizeO ((k, v) :: ms) ≤ (serObj ((k, v) :: ms)).length + 1) := by
  induction N using Nat.strong_induction_on with
  | _ N ih =>
    refine ⟨?_, ?_, ?_⟩
    · intro j hN
      cases j with
      | null => decide
      | bool b => cases b <;> decide
      | num n =>
        cases n with
        | ofNat m =>
          have h1 : decDigits m ≠ [] := by
            rw [decDigits_eq]
            exact digitsRec_ne_nil m
          have h2 := List.length_pos.mpr h1
          have h0 : sizeJ (Json.num (Int.ofNat m)) = 1 := rfl
          have h3 : serJson (Json.num (Int.ofNat m)) = decDigits m := rfl
          rw [h0, h3]
          omega
        | negSucc m =>
          have h0 : sizeJ (Json.num (Int.negSucc m)) = 1 := rfl
          have h3 : serJson (Json.num (Int.negSucc m)) =
            '-' :: decDigits (m + 1) := rfl
          rw [h0, h3]
          simp
      | str s =>
        have h0 : sizeJ (Json.str s) = 1 := rfl
        have h3 : serJson (Json.str s) =
          '"' :: (s.data.flatMap escChar ++ ['"']) := rfl
        rw [h0, h3]
        simp
      | arr xs =>
        cases xs with
        | nil => decide
        | cons x xs2 =>
          have h2 := (ih (sizeA (x :: xs2)) (by
            have h0 : sizeJ (Json.arr (x :: xs2)) = 1 + sizeA (x :: xs2) := rfl
            omega)).2.1 x xs2 (le_refl _)
          rw [show sizeJ (Json.arr (x :: xs2)) = 1 + sizeA (x :: xs2) from rfl,
            show serJson (Json.arr (x :: xs2)) =
              '[' :: (serArr (x :: xs2) ++ [']']) from rfl]
          simp only [List.length_cons, List.length_append, List.length_nil]
          omega
      | obj xs =>
        cases xs with
        | nil => decide
        | cons m ms =>
          obtain ⟨k, v⟩ := m
          have h2 := (ih (sizeO ((k, v) :: ms)) (by
            have h0 : sizeJ (Json.obj ((k, v) :: ms)) = 1 + sizeO ((k, v) :: ms) := rfl
            omega)).2.2 k v ms (le_refl _)
          rw [show sizeJ (Json.obj ((k, v) :: ms)) = 1 + sizeO ((k, v) :: ms) from rfl,
            show serJson (Json.obj ((k, v) :: ms)) =
              '{' :: (serObj ((k, v) :: ms) ++ ['}']) from rfl]
          simp only [List.length_cons, List.length_append, List.length_nil]
          omega
    · intro x xs hN
      cases xs with
      | nil =>
        have h1 := (ih (sizeJ x) (by
          have h0 : sizeA [x] = 1 + sizeJ x + sizeA ([] : List Json) := rfl
          have h0b : sizeA ([] : List Json) = 0 := rfl
          omega)).1 x (le_refl _)
        have h0 : sizeA [x] = 1 + sizeJ x + sizeA ([] : List Json) := rfl
        have h0b : sizeA ([] : List Json) = 0 := rfl
        rw [show serArr [x] = serJson x from rfl]
        omega
      | cons y ys =>
        have hp := sizeJ_pos x
        have h1 := (ih (sizeJ x) (by
          have h0 : sizeA (x :: y :: ys) = 1 + sizeJ x + sizeA (y :: ys) := rfl
          omega)).1 x (le_refl _)
        have h2 := (ih (sizeA (y :: ys)) (by
          have h0 : sizeA (x :: y :: ys) = 1 + sizeJ x + sizeA (y :: ys) := rfl
          omega)).2.1 y ys (le_refl _)
        have h0 : sizeA (x :: y :: ys) = 1 + sizeJ x + sizeA (y :: ys) := rfl
        have hs : (serArr (x :: y :: ys)).length =
            (serJson x).length + 1 + (serArr (y :: ys)).length := by
          rw [show serArr (x :: y :: ys) =
            serJson x ++ ',' :: serArr (y :: ys) from rfl]
          simp only [List.length_append, List.length_cons]
          omega
        omega
    · intro k v ms hN
      cases ms with
      | nil =>
        have h1 := (ih (sizeJ v) (by
          have h0 : sizeO [(k, v)] = 1 + sizeJ v + sizeO ([] : List (String × Json)) := rfl
          have h0b : sizeO ([] : List (String × Json)) = 0 := rfl
          omega)).1 v (le_refl _)
        have h0 : sizeO [(k, v)] = 1 + sizeJ v + sizeO ([] : List (String × Json)) := rfl
        have h0b : sizeO ([] : List (String × Json)) = 0 := rfl
        have hs : (serObj [(k, v)]).length =
            (serStrChars k.data).length + 1 + (serJson v).length := by
          rw [show serObj [(k, v)] =
            serStrChars k.data ++ ':' :: serJson v from rfl]
          simp only [List.length_append, List.length_cons]
          omega
        omega
      | cons m2 ms2 =>
        obtain ⟨k2, v2⟩ := m2
        have hp := sizeJ_pos v
        have h1 := (ih (sizeJ v) (by
          have h0 : sizeO ((k, v) :: (k2, v2) :: ms2) =
            1 + sizeJ v + sizeO ((k2, v2) :: ms2) := rfl
          omega)).1 v (le_refl _)
        have h2 := (ih (sizeO ((k2, v2) :: ms2)) (by
          have h0 : sizeO ((k, v) :: (k2, v2) :: ms2) =
            1 + sizeJ v + sizeO ((k2, v2) :: ms2) := rfl
          omega)).2.2 k2 v2 ms2 (le_refl _)
        have h0 : sizeO ((k, v) :: (k2, v2) :: ms2) =
          1 + sizeJ v + sizeO ((k2, v2) :: ms2) := rfl
        have hs : (serObj ((k, v) :: (k2, v2) :: ms2)).length =
            (serStrChars k.data).length + 1 + (serJson v).length + 1 +
              (serObj ((k2, v2) :: ms2)).length := by
          rw [show serObj ((k, v) :: (k2, v2) :: ms2) =
            serStrChars k.data ++ ':' :: serJson v ++
              ',' :: serObj ((k2, v2) :: ms2) from rfl]
          simp only [List.length_append, List.length_cons]
          omega
        omega

theorem sizeJ_le_length (j : Json) : sizeJ j ≤ (serJson j).length :=
  (size_le_len_all (sizeJ j)).1 j (le_refl _)

/-- Round trip of the textual layer: parsing the compact serialization of
any JSON value returns exactly that value. -/
theorem jsonLoads_dumps (j : Json) : jsonLoads (jsonDumps j) = some j := by
  have h := parseVal_ser j ((serJson j).length + 1) []
    (by have := sizeJ_le_length j; omega) rfl
  rw [List.append_nil] at h
  unfold jsonLoads jsonDumps
  rw [show (String.mk (serJson j)).data = serJson j from rfl]
  rw [h]

/-- The UTF-8 decoder inverts the encoder on ASCII character lists. -/
theorem utf8DecodeAux_ascii (l : List Char) :
    ∀ (f : Nat), l.length < f → (∀ c ∈ l, c.toNat < 128) →
      utf8DecodeAux f (l.flatMap utf8EncodeChar) = some l := by
  induction l with
  | nil =>
    intro f hf _
    obtain ⟨f, rfl⟩ : ∃ f1, f = f1 + 1 := ⟨f - 1, by omega⟩
    rfl
  | cons c cs ih =>
    intro f hf hall
    obtain ⟨f, rfl⟩ : ∃ f1, f = f1 + 1 := ⟨f - 1, by omega⟩
    have hc : c.toNat < 128 := hall c (by simp)
    rw [List.flatMap_cons]
    rw [show utf8EncodeChar c = [c.toNat] from by unfold utf8EncodeChar; simp [hc]]
    simp only [List.cons_append, List.nil_append]
    rw [show utf8DecodeAux (f + 1) (c.toNat :: cs.flatMap utf8EncodeChar) =
      (if c.toNat < 128 then
        Option.bind (utf8DecodeAux f (cs.flatMap utf8EncodeChar)) fun l2 =>
        some (Char.ofNat c.toNat :: l2)
      else if 192 ≤ c.toNat ∧ c.toNat < 224 then
        match cs.flatMap utf8EncodeChar with
        | b2 :: rest2 =>
          if 128 ≤ b2 ∧ b2 < 192 then
            if 128 ≤ (c.toNat - 192) * 64 + (b2 - 128) then
              Option.bind (utf8DecodeAux f rest2) fun l2 =>
              some (Char.ofNat ((c.toNat - 192) * 64 + (b2 - 128)) :: l2)
            else none
          else none
        | _ => none
      else if 224 ≤ c.toNat ∧ c.toNat < 240 then
        match cs.flatMap utf8EncodeChar with
        | b2 :: b3 :: rest2 =>
          if 128 ≤ b2 ∧ b2 < 192 ∧ 128 ≤ b3 ∧ b3 < 192 then
            if 2048 ≤ (c.toNat - 224) * 4096 + (b2 - 128) * 64 + (b3 - 128) ∧
               ¬ (55296 ≤ (c.toNat - 224) * 4096 + (b2 - 128) * 64 + (b3 - 128) ∧
                  (c.toNat - 224) * 4096 + (b2 - 128) * 64 + (b3 - 128) < 57344) then
              Option.bind (utf8DecodeAux f rest2) fun l2 =>
              some (Char.ofNat ((c.toNat - 224) * 4096 + (b2 - 128) * 64 +
                (b3 - 128)) :: l2)
            else none
          else none
        | _ => none
      else if 240 ≤ c.toNat ∧ c.toNat < 248 then
        match cs.flatMap utf8EncodeChar with
        | b2 :: b3 :: b4 :: rest2 =>
          if 128 ≤ b2 ∧ b2 < 192 ∧ 128 ≤ b3 ∧ b3 < 192 ∧ 128 ≤ b4 ∧ b4 < 192 then
            if 65536 ≤ (c.toNat - 240) * 262144 + (b2 - 128) * 4096 +
                 (b3 - 128) * 64 + (b4 - 128) ∧
               (c.toNat - 240) * 262144 + (b2 - 128) * 4096 +
                 (b3 - 128) * 64 + (b4 - 128) < 1114112 then
              Option.bind (utf8DecodeAux f rest2) fun l2 =>
              some (Char.ofNat ((c.toNat - 240) * 262144 + (b2 - 128) * 4096 +
                (b3 - 128) * 64 + (b4 - 128)) :: l2)
            else none
          else none
        | _ => none
      else none) from rfl]
    rw [if_pos hc]
    rw [ih f (by simp at hf; omega) (fun x hx => hall x (by simp [hx]))]
    simp only [Option.some_bind, Char.ofNat_toNat]

/-- The UTF-8 round trip on any ASCII string. -/
theorem utf8Decode_encode_ascii (s : String) (h : ∀ c ∈ s.data, c.toNat < 128) :
    utf8Decode (utf8Encode s) = some s := by
  unfold utf8Decode utf8Encode
  rw [utf8DecodeAux_ascii s.data _ (by
    have : s.data.length ≤ (s.data.flatMap utf8EncodeChar).length := by
      induction s.data with
      | nil => simp
      | cons c cs ih =>
        rw [List.flatMap_cons, List.length_append, List.length_cons]
        have h2 : 0 < (utf8EncodeChar c).length := by
          unfold utf8EncodeChar
          dsimp only
          split_ifs <;> simp
        omega
    omega) h]
  simp [string_mk_data]

/-! ## The compact serialization is pure ASCII (ensure_ascii=True) -/
theorem hexChar_ascii {k : Nat} (h : k < 16) : (hexChar k).toNat < 128 := by
  interval_cases k <;> decide

theorem hex4_ascii (v : Nat) (x : Char) (hx : x ∈ hex4 v) : x.toNat < 128 := by
  simp [hex4] at hx
  rcases hx with rfl | rfl | rfl | rfl <;> exact hexChar_ascii (by omega)

theorem escChar_ascii (c : Char) (x : Char) (hx : x ∈ escChar c) : x.toNat < 128 := by
  unfold escChar at hx
  split_ifs at hx with h1 h2 h3 h8 h9 h10 h12 h13 hbmp
  · rcases List.mem_cons.mp hx with rfl | hx
    · decide
    · simp at hx
      subst hx
      decide
  · rcases List.mem_cons.mp hx with rfl | hx
    · decide
    · simp at hx
      subst hx
      decide
  · simp at hx
    subst hx
    omega
  · rcases List.mem_cons.mp hx with rfl | hx
    · decide
    · simp at hx
      subst hx
      decide
  · rcases List.mem_cons.mp hx with rfl | hx
    · decide
    · simp at hx
      subst hx
      decide
  · rcases List.mem_cons.mp hx with rfl | hx
    · decide
    · simp at hx
      subst hx
      decide
  · rcases List.mem_cons.mp hx with rfl | hx
    · decide
    · simp at hx
      subst hx
      decide
  · rcases List.mem_cons.mp hx with rfl | hx
    · decide
    · simp at hx
      subst hx
      decide
  · rcases List.mem_cons.mp hx with rfl | hx
    · decide
    · rcases List.mem_cons.mp hx with rfl | hx
      · decide
      · exact hex4_ascii _ x hx
  · rcases List.mem_append.mp hx with hx | hx
    · rcases List.mem_cons.mp hx with rfl | hx
      · decide
      · rcases List.mem_cons.mp hx with rfl | hx
        · decide
        · exact hex4_ascii _ x hx
    · rcases List.mem_cons.mp hx with rfl | hx
      · decide
      · rcases List.mem_cons.mp hx with rfl | hx
        · decide
        · exact hex4_ascii _ x hx

theorem digitsRec_ascii (n : Nat) : ∀ x ∈ digitsRec n, x.toNat < 128 := by
  induction n using Nat.strong_induction_on with
  | _ n ih =>
    intro x hx
    rw [digitsRec] at hx
    by_cases h : n < 10
    · simp [h] at hx
      subst hx
      rw [toNat_ofNat_valid (by left; omega)]
      omega
    · simp [h] at hx
      rcases hx with hx | hx
      · exact ih (n / 10) (Nat.div_lt_self (by omega) (by omega)) x hx
      · subst hx
        rw [toNat_ofNat_valid (by left; omega)]
        omega

theorem serStrChars_ascii (s : List Char) (x : Char)
    (hx : x ∈ serStrChars s) : x.toNat < 128 := by
  unfold serStrChars at hx
  rcases List.mem_cons.mp hx with rfl | hx
  · decide
  · rcases List.mem_append.mp hx with hx | hx
    · obtain ⟨c, _, hc2⟩ := List.mem_flatMap.mp hx
      exact escChar_ascii c x hc2
    · simp at hx
      subst hx
      decide

theorem serInt_ascii (n : Int) (x : Char) (hx : x ∈ serInt n) : x.toNat < 128 := by
  cases n with
  | ofNat m =>
    rw [show serInt (Int.ofNat m) = decDigits m from rfl, decDigits_eq] at hx
    exact digitsRec_ascii m x hx
  | negSucc m =>
    rw [show serInt (Int.negSucc m) = '-' :: decDigits (m + 1) from rfl,
      decDigits_eq] at hx
    rcases List.mem_cons.mp hx with rfl | hx
    · decide
    · exact digitsRec_ascii (m + 1) x hx

theorem serJson_ascii_all (N : Nat) :
    (∀ j, sizeJ j ≤ N → ∀ x ∈ serJson j, x.toNat < 128) ∧
    (∀ e es, sizeA (e :: es) ≤ N → ∀ x ∈ serArr (e :: es), x.toNat < 128) ∧
    (∀ k v ms, sizeO ((k, v) :: ms) ≤ N →
      ∀ x ∈ serObj ((k, v) :: ms), x.toNat < 128) := by
  induction N using Nat.strong_induction_on with
  | _ N ih =>
    refine ⟨?_, ?_, ?_⟩
    · intro j hN x hx
      cases j with
      | null =>
        rcases List.mem_cons.mp hx with rfl | hx
        · decide
        · simp at hx
          rcases hx with rfl | rfl | rfl <;> decide
      | bool b =>
        cases b with
        | true =>
          rcases List.mem_cons.mp hx with rfl | hx
          · decide
          · simp at hx
            rcases hx with rfl | rfl | rfl <;> decide
        | false =>
          rcases List.mem_cons.mp hx with rfl | hx
          · decide
          · simp at hx
            rcases hx with rfl | rfl | rfl | rfl <;> decide
      | num n => exact serInt_ascii n x hx
      | str s => exact serStrChars_ascii s.data x hx
      | arr xs =>
        cases xs with
        | nil =>
          have h4 : serJson (Json.arr []) = ['[', ']'] := rfl
          rw [h4] at hx
          simp at hx
          rcases hx with rfl | rfl <;> decide
        | cons e es =>
          rw [show serJson (Json.arr (e :: es)) =
            '[' :: (serArr (e :: es) ++ [']']) from rfl] at hx
          rcases List.mem_cons.mp hx with rfl | hx
          · decide
          · rcases List.mem_append.mp hx with hx | hx
            · exact (ih (sizeA (e :: es)) (by
                have h0 : sizeJ (Json.arr (e :: es)) = 1 + sizeA (e :: es) := rfl
                omega)).2.1 e es (le_refl _) x hx
            · simp at hx
              subst hx
              decide
      | obj xs =>
        cases xs with
        | nil =>
          have h4 : serJson (Json.obj []) = ['{', '}'] := rfl
          rw [h4] at hx
          simp at hx
          rcases hx with rfl | rfl <;> decide
        | cons m ms =>
          obtain ⟨k, v⟩ := m
          rw [show serJson (Json.obj ((k, v) :: ms)) =
            '{' :: (serObj ((k, v) :: ms) ++ ['}']) from rfl] at hx
          rcases List.mem_cons.mp hx with rfl | hx
          · decide
          · rcases List.mem_append.mp hx with hx | hx
            · exact (ih (sizeO ((k, v) :: ms)) (by
                have h0 : sizeJ (Json.obj ((k, v) :: ms)) =
                  1 + sizeO ((k, v) :: ms) := rfl
                omega)).2.2 k v ms (le_refl _) x hx
            · simp at hx
              subst hx
              decide
    · intro e es hN x hx
      cases es with
      | nil =>
        rw [show serArr [e] = serJson e from rfl] at hx
        exact (ih (sizeJ e) (by
          have h0 : sizeA [e] = 1 + sizeJ e + sizeA ([] : List Json) := rfl
          have h0b : sizeA ([] : List Json) = 0 := rfl
          omega)).1 e (le_refl _) x hx
      | cons y ys =>
        have hp := sizeJ_pos e
        rw [show serArr (e :: y :: ys) =
          serJson e ++ ',' :: serArr (y :: ys) from rfl] at hx
        have h0 : sizeA (e :: y :: ys) = 1 + sizeJ e + sizeA (y :: ys) := rfl
        rcases List.mem_append.mp hx with hx | hx
        · exact (ih (sizeJ e) (by omega)).1 e (le_refl _) x hx
        · rcases List.mem_cons.mp hx with rfl | hx
          · decide
          · exact (ih (sizeA (y :: ys)) (by omega)).2.1 y ys (le_refl _) x hx
    · intro k v ms hN x hx
      cases ms with
      | nil =>
        rw [show serObj [(k, v)] =
          serStrChars k.data ++ ':' :: serJson v from rfl] at hx
        have h0 : sizeO [(k, v)] = 1 + sizeJ v + sizeO ([] : List (String × Json)) := rfl
        have h0b : sizeO ([] : List (String × Json)) = 0 := rfl
        rcases List.mem_append.mp hx with hx | hx
        · exact serStrChars_ascii k.data x hx
        · rcases List.mem_cons.mp hx with rfl | hx
          · decide
          · exact (ih (sizeJ v) (by omega)).1 v (le_refl _) x hx
      | cons m2 ms2 =>
        obtain ⟨k2, v2⟩ := m2
        have hp := sizeJ_pos v
        rw [show serObj ((k, v) :: (k2, v2) :: ms2) =
          serStrChars k.data ++ ':' :: serJson v ++
            ',' :: serObj ((k2, v2) :: ms2) from rfl] at hx
        have h0 : sizeO ((k, v) :: (k2, v2) :: ms2) =
          1 + sizeJ v + sizeO ((k2, v2) :: ms2) := rfl
        rcases List.mem_append.mp hx with hx | hx
        · rcases List.mem_append.mp hx with hx | hx
          · exact serStrChars_ascii k.data x hx
          · rcases List.mem_cons.mp hx with rfl | hx
            · decide
            · exact (ih (sizeJ v) (by omega)).1 v (le_refl _) x hx
        · rcases List.mem_cons.mp hx with rfl | hx
          · decide
          · exact (ih (sizeO ((k2, v2) :: ms2)) (by omega)).2.2 k2 v2 ms2
              (le_refl _) x hx

/-- Every character of the compact serialization is ASCII. -/
theorem serJson_ascii (j : Json) : ∀ x ∈ serJson j, x.toNat < 128 :=
  (serJson_ascii_all (sizeJ j)).1 j (le_refl _)

/-- The textual and byte layers compose: UTF-8 decoding the UTF-8 encoding
of the compact serialization gives back exactly the serialized text. -/
theorem utf8_roundtrip_dumps (j : Json) :
    utf8Decode (utf8Encode (jsonDumps j)) = some (jsonDumps j) := by
  exact utf8Decode_encode_ascii (jsonDumps j) (by
    intro c hc
    exact serJson_ascii j c hc)

theorem crcRound_lt (c : Nat) (h : c < 4294967296) : crcRound c < 4294967296 := by
  unfold crcRound
  split_ifs
  · have h1 : c / 2 < 2 ^ 32 := by omega
    have h2 : (3988292384 : Nat) < 2 ^ 32 := by norm_num
    have := Nat.xor_lt_two_pow h1 h2
    omega
  · omega

theorem crcRounds_lt (n c : Nat) (h : c < 4294967296) :
    crcRounds n c < 4294967296 := by
  induction n generalizing c with
  | zero => exact h
  | succ n ih => exact ih _ (crcRound_lt c h)

theorem crc32Aux_lt (bs : List Nat) : ∀ c, c < 4294967296 →
    crc32Aux c bs < 4294967296 := by
  induction bs with
  | nil => intro c h; exact h
  | cons b bs ih =>
    intro c h
    refine ih _ (crcRounds_lt 8 _ ?_)
    have h1 : c < 2 ^ 32 := by omega
    have h2 : b % 256 < 2 ^ 32 := by
      have := Nat.mod_lt b (y := 256) (by omega)
      omega
    have := Nat.xor_lt_two_pow h1 h2
    omega

theorem crc32_lt (bs : List Nat) : crc32 bs < 4294967296 := by
  unfold crc32
  have h1 : crc32Aux 4294967295 bs < 2 ^ 32 := by
    have := crc32Aux_lt bs 4294967295 (by omega)
    omega
  have h2 : (4294967295 : Nat) < 2 ^ 32 := by norm_num
  have := Nat.xor_lt_two_pow h1 h2
  omega

theorem take_of_length_eq {α : Type} (A B : List α) (n : Nat)
    (h : A.length = n) : (A ++ B).take n = A := by
  subst h
  exact List.take_left A B

theorem drop_of_length_eq {α : Type} (A B : List α) (n : Nat)
    (h : A.length = n) : (A ++ B).drop n = B := by
  subst h
  exact List.drop_left A B

theorem dstoredAux_length_ge (N : Nat) : ∀ data : List Nat, data.length ≤ N →
    ∀ fd, data.length < fd → data.length ≤ (dstoredAux fd data).length := by
  induction N using Nat.strong_induction_on with
  | _ N ih =>
    intro data hN fd hfd
    obtain ⟨fd, rfl⟩ : ∃ f1, fd = f1 + 1 := ⟨fd - 1, by omega⟩
    rw [dstoredAux]
    by_cases h : data.length ≤ 65535
    · simp only [if_pos h, le16, List.length_cons, List.length_append]
      omega
    · rw [if_neg h]
      have hrec := ih (data.length - 65535) (by omega) (data.drop 65535)
        (by simp only [List.length_drop]; omega) fd
        (by simp only [List.length_drop]; omega)
      simp only [List.length_cons, List.length_append, List.length_take,
        List.length_drop, le16] at *
      omega

/-- Inflating a stored-block stream followed by any extra bytes recovers
the original data and leaves the extra bytes. -/
theorem inflStored_dstoredAux (N : Nat) : ∀ data : List Nat, data.length ≤ N →
    ∀ (fd fi : Nat) (extra : List Nat), data.length < fd → data.length < fi →
      inflStored fi (dstoredAux fd data ++ extra) = some (data, extra) := by
  induction N using Nat.strong_induction_on with
  | _ N ih =>
    intro data hN fd fi extra hfd hfi
    obtain ⟨fd, rfl⟩ : ∃ f1, fd = f1 + 1 := ⟨fd - 1, by omega⟩
    obtain ⟨fi, rfl⟩ : ∃ f1, fi = f1 + 1 := ⟨fi - 1, by omega⟩
    rw [dstoredAux]
    by_cases h : data.length ≤ 65535
    · rw [if_pos h]
      simp only [le16, List.cons_append, List.nil_append, List.append_assoc]
      rw [show inflStored (fi + 1) (1 :: data.length % 256 :: data.length / 256 ::
        (65535 - data.length) % 256 :: (65535 - data.length) / 256 ::
        (data ++ extra)) =
        (if (65535 - data.length) % 256 + 256 * ((65535 - data.length) / 256) =
            65535 - (data.length % 256 + 256 * (data.length / 256)) ∧
           data.length % 256 + 256 * (data.length / 256) ≤ (data ++ extra).length
         then
           if (1 : Nat) = 1 then
             some ((data ++ extra).take (data.length % 256 + 256 * (data.length / 256)),
               (data ++ extra).drop (data.length % 256 + 256 * (data.length / 256)))
           else if (1 : Nat) = 0 then
             Option.bind (inflStored fi ((data ++ extra).drop
               (data.length % 256 + 256 * (data.length / 256)))) fun p =>
             some ((data ++ extra).take
               (data.length % 256 + 256 * (data.length / 256)) ++ p.1, p.2)
           else none
         else none) from rfl]
      have hlen : data.length % 256 + 256 * (data.length / 256) = data.length := by
        omega
      rw [hlen]
      rw [if_pos (by
        constructor
        · omega
        · simp)]
      rw [if_pos rfl]
      rw [List.take_left, List.drop_left]
    · rw [if_neg h]
      simp only [le16, List.cons_append, List.nil_append, List.append_assoc]
      rw [show inflStored (fi + 1) (0 :: 65535 % 256 :: 65535 / 256 :: 0 % 256 ::
        0 / 256 :: (data.take 65535 ++ (dstoredAux fd (data.drop 65535) ++ extra))) =
        (if 0 % 256 + 256 * (0 / 256) = 65535 - (65535 % 256 + 256 * (65535 / 256)) ∧
           65535 % 256 + 256 * (65535 / 256) ≤
             (data.take 65535 ++ (dstoredAux fd (data.drop 65535) ++ extra)).length
         then
           if (0 : Nat) = 1 then
             some ((data.take 65535 ++ (dstoredAux fd (data.drop 65535) ++
               extra)).take (65535 % 256 + 256 * (65535 / 256)),
               (data.take 65535 ++ (dstoredAux fd (data.drop 65535) ++
                 extra)).drop (65535 % 256 + 256 * (65535 / 256)))
           else if (0 : Nat) = 0 then
             Option.bind (inflStored fi ((data.take 65535 ++ (dstoredAux fd
               (data.drop 65535) ++ extra)).drop
               (65535 % 256 + 256 * (65535 / 256)))) fun p =>
             some ((data.take 65535 ++ (dstoredAux fd (data.drop 65535) ++
               extra)).take (65535 % 256 + 256 * (65535 / 256)) ++ p.1, p.2)
           else none
         else none) from rfl]
      have h1 : (65535 : Nat) % 256 + 256 * (65535 / 256) = 65535 := by norm_num
      rw [h1]
      have htk : (data.take 65535).length = 65535 := by
        simp only [List.length_take]
        omega
      have hlen2 : (dstoredAux fd (data.drop 65535)).length ≥ data.length - 65535 := by
        have := dstoredAux_length_ge (data.length - 65535) (data.drop 65535)
          (by simp only [List.length_drop]; omega) fd
          (by simp only [List.length_drop]; omega)
        simp only [List.length_drop] at this
        omega
      rw [if_pos (by
        constructor
        · norm_num
        · simp only [List.length_append]
          omega)]
      rw [if_neg (by omega), if_pos rfl]
      have htake : (data.take 65535 ++ (dstoredAux fd (data.drop 65535) ++
          extra)).take 65535 = data.take 65535 :=
        take_of_length_eq _ _ _ htk
      have hdrop : (data.take 65535 ++ (dstoredAux fd (data.drop 65535) ++
          extra)).drop 65535 = dstoredAux fd (data.drop 65535) ++ extra :=
        drop_of_length_eq _ _ _ htk
      rw [htake, hdrop]
      rw [ih (data.length - 65535) (by omega) (data.drop 65535)
        (by simp only [List.length_drop]; omega)
        fd fi extra (by simp only [List.length_drop]; omega)
        (by simp only [List.length_drop]; omega)]
      simp only [Option.some_bind, List.take_append_drop]

theorem le32_recompose (v : Nat) (h : v < 4294967296) :
    v % 256 + 256 * (v / 256 % 256) + 65536 * (v / 65536 % 256) +
      16777216 * (v / 16777216 % 256) = v := by
  omega

/-- gzip decompression inverts gzip compression, for every clock value. -/
theorem gunzip_gzipCompress (mtime : Nat) (data : List Nat) :
    gunzip (gzipCompress mtime data) = some data := by
  unfold gzipCompress gunzip
  simp only [le32, deflateStored, List.cons_append, List.nil_append,
    List.append_assoc]
  rw [inflStored_dstoredAux data.length data (le_refl _) (data.length + 1) _
    ([crc32 data % 256, crc32 data / 256 % 256, crc32 data / 65536 % 256,
      crc32 data / 16777216 % 256, data.length % 4294967296 % 256,
      data.length % 4294967296 / 256 % 256, data.length % 4294967296 / 65536 % 256,
      data.length % 4294967296 / 16777216 % 256])
    (by omega)
    (by
      have := dstoredAux_length_ge data.length data (le_refl _) (data.length + 1)
        (by omega)
      simp only [List.length_append]
      omega)]
  simp only [Option.some_bind]
  rw [if_pos (by
    constructor
    · exact le32_recompose (crc32 data) (crc32_lt data)
    · exact le32_recompose (data.length % 4294967296) (by omega))]

theorem b64_facts {n : Nat} (h : n < 64) :
    decChar (encChar n) = some n ∧ encChar n ≠ '=' ∧
    unsubst (substPlus (encChar n)) = encChar n ∧
    substPlus (encChar n) ≠ '=' ∧ urlOk (substPlus (encChar n)) = true := by
  interval_cases n <;> exact ⟨rfl, by decide, rfl, by decide, rfl⟩

/-- base64 decoding inverts base64 encoding on byte lists. -/
theorem b64d_b64e (bs : List Nat) (hb : ∀ x ∈ bs, x < 256) :
    b64d (b64e bs) = some bs := by
  induction bs using b64e.induct with
  | case1 => rfl
  | case2 a =>
    have ha : a < 256 := hb a (by simp)
    rw [show b64e [a] = [encChar (a / 4), encChar (a % 4 * 16), '=', '='] from rfl]
    simp only [b64d]
    rw [(b64_facts (show a / 4 < 64 by omega)).1]
    simp only [Option.some_bind]
    rw [(b64_facts (show a % 4 * 16 < 64 by omega)).1]
    simp only [Option.some_bind]
    simp only [and_self, if_true]
    rw [show a / 4 * 4 + a % 4 * 16 / 16 = a from by omega]
  | case3 a b =>
    have ha : a < 256 := hb a (by simp)
    have hbb : b < 256 := hb b (by simp)
    rw [show b64e [a, b] = [encChar (a / 4), encChar (a % 4 * 16 + b / 16),
      encChar (b % 16 * 4), '='] from rfl]
    simp only [b64d]
    rw [(b64_facts (show a / 4 < 64 by omega)).1]
    simp only [Option.some_bind]
    rw [(b64_facts (show a % 4 * 16 + b / 16 < 64 by omega)).1]
    simp only [Option.some_bind]
    rw [if_neg (b64_facts (show b % 16 * 4 < 64 by omega)).2.1]
    rw [(b64_facts (show b % 16 * 4 < 64 by omega)).1]
    simp only [Option.some_bind]
    simp only [if_true]
    rw [show a / 4 * 4 + (a % 4 * 16 + b / 16) / 16 = a from by omega]
    rw [show (a % 4 * 16 + b / 16) % 16 * 16 + b % 16 * 4 / 4 = b from by omega]
  | case4 a b c rest ih =>
    have ha : a < 256 := hb a (by simp)
    have hbb : b < 256 := hb b (by simp)
    have hc : c < 256 := hb c (by simp)
    rw [show b64e (a :: b :: c :: rest) = encChar (a / 4) ::
      encChar (a % 4 * 16 + b / 16) :: encChar (b % 16 * 4 + c / 64) ::
      encChar (c % 64) :: b64e rest from by
        cases rest with
        | nil => rfl
        | cons y ys => cases ys <;> rfl]
    simp only [b64d]
    rw [(b64_facts (show a / 4 < 64 by omega)).1]
    simp only [Option.some_bind]
    rw [(b64_facts (show a % 4 * 16 + b / 16 < 64 by omega)).1]
    simp only [Option.some_bind]
    rw [if_neg (b64_facts (show b % 16 * 4 + c / 64 < 64 by omega)).2.1]
    rw [(b64_facts (show b % 16 * 4 + c / 64 < 64 by omega)).1]
    simp only [Option.some_bind]
    rw [if_neg (b64_facts (show c % 64 < 64 by omega)).2.1]
    rw [(b64_facts (show c % 64 < 64 by omega)).1]
    simp only [Option.some_bind]
    rw [ih (fun x hx => hb x (by simp [hx]))]
    simp only [Option.some_bind]
    rw [show a / 4 * 4 + (a % 4 * 16 + b / 16) / 16 = a from by omega]
    rw [show (a % 4 * 16 + b / 16) % 16 * 16 + (b % 16 * 4 + c / 64) / 4 = b
      from by omega]
    rw [show (b % 16 * 4 + c / 64) % 4 * 64 + c % 64 = c from by omega]

/-! ## Byte bounds and the URL-safe token -/
theorem utf8EncodeChar_lt (c : Char) : ∀ x ∈ utf8EncodeChar c, x < 256 := by
  intro x hx
  have hv : c.toNat < 1114112 := char_toNat_lt c
  unfold utf8EncodeChar at hx
  dsimp only at hx
  split_ifs at hx with h1 h2 h3
  · simp only [List.mem_cons, List.not_mem_nil, or_false] at hx
    omega
  · simp only [List.mem_cons, List.not_mem_nil, or_false] at hx
    rcases hx with rfl | rfl <;> omega
  · simp only [List.mem_cons, List.not_mem_nil, or_false] at hx
    rcases hx with rfl | rfl | rfl <;> omega
  · simp only [List.mem_cons, List.not_mem_nil, or_false] at hx
    rcases hx with rfl | rfl | rfl | rfl <;> omega

theorem utf8Encode_lt (s : String) : ∀ x ∈ utf8Encode s, x < 256 := by
  intro x hx
  simp only [utf8Encode, List.mem_flatMap] at hx
  obtain ⟨c, _, hc⟩ := hx
  exact utf8EncodeChar_lt c x hc

theorem dstoredAux_lt (f : Nat) : ∀ data : List Nat, (∀ x ∈ data, x < 256) →
    ∀ x ∈ dstoredAux f data, x < 256 := by
  induction f with
  | zero =>
    intro data _ x hx
    simp only [dstoredAux, List.not_mem_nil] at hx
  | succ f ih =>
    intro data hd x hx
    simp only [dstoredAux] at hx
    split_ifs at hx with h
    · simp only [le16, List.cons_append, List.nil_append, List.mem_cons,
        List.mem_append] at hx
      rcases hx with rfl | rfl | rfl | rfl | rfl | hx
      · omega
      · omega
      · omega
      · omega
      · omega
      · exact hd x hx
    · simp only [le16, List.cons_append, List.nil_append, List.mem_cons,
        List.mem_append] at hx
      rcases hx with rfl | rfl | rfl | rfl | rfl | hx | hx
      · omega
      · omega
      · omega
      · omega
      · omega
      · exact hd x (List.take_subset 65535 data hx)
      · exact ih (data.drop 65535) (fun y hy => hd y (List.drop_subset 65535 data hy)) x hx

theorem deflateStored_lt (data : List Nat) (hd : ∀ x ∈ data, x < 256) :
    ∀ x ∈ deflateStored data, x < 256 :=
  dstoredAux_lt (data.length + 1) data hd

set_option maxRecDepth 2000 in
theorem gzipCompress_lt (mtime : Nat) (data : List Nat)
    (hd : ∀ x ∈ data, x < 256) : ∀ x ∈ gzipCompress mtime data, x < 256 := by
  intro x hx
  simp only [gzipCompress, le32, List.cons_append, List.nil_append,
    List.mem_append, List.mem_cons, List.not_mem_nil, or_false] at hx
  rcases hx with rfl | rfl | rfl | rfl | rfl | rfl | rfl | rfl | rfl | rfl |
    (hx | rfl | rfl | rfl | rfl) | rfl | rfl | rfl | rfl
  all_goals first
    | omega
    | exact deflateStored_lt data hd x hx

theorem rstripEq_append (core : List Char) (p : Nat)
    (h : ∀ c ∈ core, c ≠ '=') :
    rstripEq (core ++ List.replicate p '=') = core := by
  unfold rstripEq
  rw [List.reverse_append, List.reverse_replicate, List.dropWhile_append]
  have h1 : (List.replicate p '=').dropWhile (fun c => c == '=') = [] := by
    induction p with
    | zero => rfl
    | succ p ih => rw [List.replicate_succ, List.dropWhile_cons]; simpa using ih
  rw [h1]
  have h2 : core.reverse.dropWhile (fun c => c == '=') = core.reverse := by
    cases hr : core.reverse with
    | nil => rfl
    | cons d ds =>
      rw [List.dropWhile_cons, if_neg]
      intro hd
      have hdm : d ∈ core := by
        have : d ∈ core.reverse := by rw [hr]; exact List.mem_cons_self d ds
        exact List.mem_reverse.mp this
      exact h d hdm (by simpa using hd)
  simp only [List.isEmpty_nil, if_true, h2, List.reverse_reverse]

/-- Structure of the base64 encoding: an '='-free core of alphabet
characters followed by (3 - n mod 3) mod 3 padding characters, the whole
four characters per three-byte group. -/
theorem b64e_struct (bs : List Nat) (hb : ∀ x ∈ bs, x < 256) :
    ∃ core : List Char,
      b64e bs = core ++ List.replicate ((3 - bs.length % 3) % 3) '=' ∧
      core.length + (3 - bs.length % 3) % 3 = 4 * ((bs.length + 2) / 3) ∧
      ∀ c ∈ core, ∃ n, n < 64 ∧ c = encChar n := by
  induction bs using b64e.induct with
  | case1 => exact ⟨[], rfl, rfl, by simp⟩
  | case2 a =>
    have ha : a < 256 := hb a (by simp)
    refine ⟨[encChar (a / 4), encChar (a % 4 * 16)], by rfl,
      by simp only [List.length_cons, List.length_nil], ?_⟩
    intro c hc
    rcases List.mem_cons.mp hc with rfl | hc
    · exact ⟨a / 4, by omega, rfl⟩
    rcases List.mem_cons.mp hc with rfl | hc
    · exact ⟨a % 4 * 16, by omega, rfl⟩
    · simp at hc
  | case3 a b =>
    have ha : a < 256 := hb a (by simp)
    have hbb : b < 256 := hb b (by simp)
    refine ⟨[encChar (a / 4), encChar (a % 4 * 16 + b / 16),
      encChar (b % 16 * 4)], by rfl,
      by simp only [List.length_cons, List.length_nil], ?_⟩
    intro c hc
    rcases List.mem_cons.mp hc with rfl | hc
    · exact ⟨a / 4, by omega, rfl⟩
    rcases List.mem_cons.mp hc with rfl | hc
    · exact ⟨a % 4 * 16 + b / 16, by omega, rfl⟩
    rcases List.mem_cons.mp hc with rfl | hc
    · exact ⟨b % 16 * 4, by omega, rfl⟩
    · simp at hc
  | case4 a b c rest ih =>
    have ha : a < 256 := hb a (by simp)
    have hbb : b < 256 := hb b (by simp)
    have hc : c < 256 := hb c (by simp)
    obtain ⟨core, he, hl, hm⟩ := ih (fun x hx => hb x (by simp [hx]))
    refine ⟨encChar (a / 4) :: encChar (a % 4 * 16 + b / 16) ::
      encChar (b % 16 * 4 + c / 64) :: encChar (c % 64) :: core, ?_, ?_, ?_⟩
    · rw [show b64e (a :: b :: c :: rest) = encChar (a / 4) ::
        encChar (a % 4 * 16 + b / 16) :: encChar (b % 16 * 4 + c / 64) ::
        encChar (c % 64) :: b64e rest from by
          cases rest with
          | nil => rfl
          | cons y ys => cases ys <;> rfl]
      rw [he]
      have hmod : (3 - (a :: b :: c :: rest).length % 3) % 3 =
          (3 - rest.length % 3) % 3 := by
        simp only [List.length_cons]
        omega
      rw [hmod]
      simp only [List.cons_append]
    · simp only [List.length_cons] at hl ⊢
      omega
    · intro x hx
      rcases List.mem_cons.mp hx with rfl | hx
      · exact ⟨a / 4, by omega, rfl⟩
      rcases List.mem_cons.mp hx with rfl | hx
      · exact ⟨a % 4 * 16 + b / 16, by omega, rfl⟩
      rcases List.mem_cons.mp hx with rfl | hx
      · exact ⟨b % 16 * 4 + c / 64, by omega, rfl⟩
      rcases List.mem_cons.mp hx with rfl | hx
      · exact ⟨c % 64, by omega, rfl⟩
      · exact hm x hx

/-- Everything C1, C3 and C9 need about the token in one place: its exact
relation to the base64 core, its length equation, its alphabet, and that
the decoder inverts it. -/
theorem urlSafeToken_struct (bs : List Nat) (hb : ∀ x ∈ bs, x < 256) :
    (urlSafeToken bs).length + (3 - bs.length % 3) % 3 =
      4 * ((bs.length + 2) / 3) ∧
    (∀ c ∈ urlSafeToken bs, urlOk c = true) ∧
    b64UrlDecode (urlSafeToken bs) = some bs := by
  obtain ⟨core, he, hl, hm⟩ := b64e_struct bs hb
  have hsub : ∀ c ∈ core.map substPlus, c ≠ '=' := by
    intro c hc
    obtain ⟨d, hd, rfl⟩ := List.mem_map.mp hc
    obtain ⟨n, hn, rfl⟩ := hm d hd
    exact (b64_facts hn).2.2.2.1
  have htok : urlSafeToken bs = core.map substPlus := by
    unfold urlSafeToken
    rw [he, List.map_append, List.map_replicate,
      show substPlus '=' = '=' from rfl]
    exact rstripEq_append _ _ hsub
  refine ⟨?_, ?_, ?_⟩
  · rw [htok]
    simp only [List.length_map]
    exact hl
  · intro c hc
    rw [htok] at hc
    obtain ⟨d, hd, rfl⟩ := List.mem_map.mp hc
    obtain ⟨n, hn, rfl⟩ := hm d hd
    exact (b64_facts hn).2.2.2.2
  · rw [htok]
    unfold b64UrlDecode
    have hplen : (4 - (core.map substPlus).length % 4) % 4 =
        (3 - bs.length % 3) % 3 := by
      simp only [List.length_map]
      omega
    rw [hplen, List.map_append, List.map_replicate,
      show unsubst '=' = '=' from rfl]
    have hid : ∀ d ∈ core, (unsubst ∘ substPlus) d = d := by
      intro d hd
      obtain ⟨n, hn, rfl⟩ := hm d hd
      exact (b64_facts hn).2.2.1
    have hback : (core.map substPlus).map unsubst = core := by
      rw [List.map_map, List.map_congr_left hid, List.map_id']
    rw [hback, ← he]
    exact b64d_b64e bs hb

theorem pyReplace_subst (l : List Char) :
    pyReplace '/' '_' (pyReplace '+' '-' l) = l.map substPlus := by
  unfold pyReplace
  rw [List.map_map]
  refine List.map_congr_left ?_
  intro c _
  by_cases h1 : c = '+'
  · subst h1; rfl
  by_cases h2 : c = '/'
  · subst h2; rfl
  show (if (if c = '+' then '-' else c) = '/' then '_'
    else if c = '+' then '-' else c) = substPlus c
  rw [if_neg h1, if_neg h2]
  unfold substPlus
  rw [if_neg h1, if_neg h2]

theorem encode_event_eq (mtime : Nat) (e : Json) :
    encode_event mtime e =
      urlSafeToken (gzipCompress mtime (utf8Encode (jsonDumps e))) := by
  unfold encode_event urlSafeToken
  rw [pyReplace_subst]

example : formatTime 0 = "1970-01-01T00:00:00Z" := by decide

example : formatTime 1771200120 = "2026-02-16T00:02:00Z" := by decide

example : formatTime 951782399 = "2000-02-28T23:59:59Z" := by decide

example : formatTime 951782400 = "2000-02-29T00:00:00Z" := by decide

example : formatTime 4102444799 = "2099-12-31T23:59:59Z" := by decide

/-! ## Dict-lookup lemmas -/
theorem jlookup_cons (p : String × Json) (rest : List (String × Json))
    (k : String) :
    jlookup (p :: rest) k = if p.1 = k then some p.2 else jlookup rest k := by
  obtain ⟨k1, v1⟩ := p
  rfl

theorem jlookup_eq_none {d : List (String × Json)} {k : String}
    (h : ∀ p ∈ d, p.1 ≠ k) : jlookup d k = none := by
  induction d with
  | nil => rfl
  | cons p rest ih =>
    rw [jlookup_cons, if_neg (h p (List.mem_cons_self p rest))]
    exact ih (fun q hq => h q (List.mem_cons_of_mem p hq))

theorem jlookup_mem {d : List (String × Json)} {k : String} {v : Json}
    (h : jlookup d k = some v) : (k, v) ∈ d := by
  induction d with
  | nil => simp [jlookup] at h
  | cons p rest ih =>
    rw [jlookup_cons] at h
    split_ifs at h with hp
    · obtain ⟨k1, v1⟩ := p
      simp only [Option.some.injEq] at h
      have hk : k1 = k := hp
      subst hk
      subst h
      exact List.mem_cons_self _ _
    · exact List.mem_cons_of_mem p (ih h)

theorem jlookup_append_none {d e : List (String × Json)} {k : String}
    (h : jlookup d k = none) : jlookup (d ++ e) k = jlookup e k := by
  induction d with
  | nil => rw [List.nil_append]
  | cons p rest ih =>
    rw [jlookup_cons] at h
    rw [List.cons_append, jlookup_cons]
    split_ifs at h ⊢ with hp
    · exact ih h

theorem jlookup_map_update {d : List (String × Json)} {k : String} {v : Json}
    (h : ∃ p ∈ d, p.1 = k) :
    jlookup (d.map (fun p => if p.1 = k then (k, v) else p)) k = some v := by
  induction d with
  | nil => obtain ⟨p, hp, _⟩ := h; simp at hp
  | cons p rest ih =>
    rw [List.map_cons]
    by_cases hp : p.1 = k
    · rw [if_pos hp, jlookup_cons, if_pos rfl]
    · rw [if_neg hp, jlookup_cons, if_neg hp]
      refine ih ?_
      obtain ⟨q, hq, hqk⟩ := h
      rcases List.mem_cons.mp hq with rfl | hq
      · exact absurd hqk hp
      · exact ⟨q, hq, hqk⟩

theorem jlookup_dictUpdate_self (d : List (String × Json)) (k : String)
    (v : Json) : jlookup (dictUpdate d k v) k = some v := by
  unfold dictUpdate
  split_ifs with h
  · refine jlookup_map_update ?_
    obtain ⟨p, hp, hpk⟩ := List.any_eq_true.mp h
    exact ⟨p, hp, by simpa using hpk⟩
  · have hnone : jlookup d k = none := by
      refine jlookup_eq_none ?_
      intro p hp hk
      exact h (List.any_eq_true.mpr ⟨p, hp, by simp [hk]⟩)
    rw [jlookup_append_none hnone, jlookup_cons, if_pos rfl]

theorem jlookup_map_other (d : List (String × Json)) {k2 k : String}
    (v : Json) (h : k2 ≠ k) :
    jlookup (d.map (fun p => if p.1 = k2 then (k2, v) else p)) k =
      jlookup d k := by
  induction d with
  | nil => rfl
  | cons p rest ih =>
    rw [List.map_cons, jlookup_cons, jlookup_cons]
    by_cases hp : p.1 = k2
    · rw [if_pos hp, show ((k2, v) : String × Json).1 = k2 from rfl,
        if_neg h, if_neg (hp ▸ h)]
      exact ih
    · rw [if_neg hp]
      by_cases hpk : p.1 = k
      · rw [if_pos hpk, if_pos hpk]
      · rw [if_neg hpk, if_neg hpk]
        exact ih

theorem jlookup_append_sing (d : List (String × Json)) {k2 k : String}
    (v : Json) (h : k2 ≠ k) :
    jlookup (d ++ [(k2, v)]) k = jlookup d k := by
  induction d with
  | nil => rw [List.nil_append, jlookup_cons, if_neg h]
  | cons p rest ih =>
    rw [List.cons_append, jlookup_cons, jlookup_cons]
    rw [ih]

theorem jlookup_dictUpdate_other (d : List (String × Json)) {k2 k : String}
    (v : Json) (h : k2 ≠ k) :
    jlookup (dictUpdate d k2 v) k = jlookup d k := by
  unfold dictUpdate
  split_ifs with hc
  · exact jlookup_map_other d v h
  · exact jlookup_append_sing d v h

theorem jlookup_dictUpdateAll_absent (entries : List (String × Json)) :
    ∀ (base : List (String × Json)) (k : String),
      (∀ p ∈ entries, p.1 ≠ k) →
      jlookup (dictUpdateAll base entries) k = jlookup base k := by
  induction entries with
  | nil => intro base k _; rfl
  | cons p rest ih =>
    intro base k h
    rw [show dictUpdateAll base (p :: rest) =
      dictUpdateAll (dictUpdate base p.1 p.2) rest from rfl]
    rw [ih _ _ (fun q hq => h q (List.mem_cons_of_mem p hq))]
    exact jlookup_dictUpdate_other base p.2 (h p (List.mem_cons_self p rest))

theorem jlookup_dictUpdateAll_mem (entries : List (String × Json)) :
    ∀ (base : List (String × Json)) (k : String) (v : Json),
      (k, v) ∈ entries → (entries.map Prod.fst).Nodup →
      jlookup (dictUpdateAll base entries) k = some v := by
  induction entries with
  | nil => intro base k v hm _; simp at hm
  | cons p rest ih =>
    intro base k v hm hnd
    rw [show dictUpdateAll base (p :: rest) =
      dictUpdateAll (dictUpdate base p.1 p.2) rest from rfl]
    rcases List.mem_cons.mp hm with rfl | hm
    · rw [jlookup_dictUpdateAll_absent rest _ _ ?_]
      · exact jlookup_dictUpdate_self base k v
      · intro q hq hqk
        rw [List.map_cons] at hnd
        have hin : k ∈ rest.map Prod.fst := hqk ▸ List.mem_map_of_mem Prod.fst hq
        exact (List.nodup_cons.mp hnd).1 hin
    · exact ih _ _ _ hm (List.nodup_cons.mp (List.map_cons Prod.fst p rest ▸ hnd)).2

/-! ## Builder lemmas -/
theorem relOf_some {act : List (String × Json)} {r : Int}
    (h : relOf act = some r) :
    jlookup act "relativeTime" = some (Json.num r) := by
  unfold relOf at h
  split at h
  · simp only [Option.some.injEq] at h
    subst h
    assumption
  · exact absurd h (by simp)

theorem buildActions_cons (start i : Nat) (act : List (String × Json))
    (rest : List (List (String × Json))) :
    buildActions start i (act :: rest) =
      (Option.bind (relOf act) fun rel =>
       Option.bind (jlookup act "action") fun av =>
       Option.bind (buildActions start (i + 1) rest) fun acts =>
       some (Json.obj (dictUpdateAll
         [("id", Json.str (actionId i)),
          ("time", Json.str (formatTime (Int.toNat (start + rel)))),
          ("action", av),
          ("audioAnnounce", Json.bool true),
          ("announceActionName", Json.bool true)]
         (act.filter (fun p => p.1 != "action"))) :: acts)) := rfl

/-- What the builder loop guarantees action by action: the i-th built
action is an object whose id and time are the generated ones (as long as
the template does not itself smuggle in an "id" or "time" key, which the
** spread would let override them), and whose relativeTime is the
template's, passed through by the spread. -/
theorem buildActions_spec :
    ∀ (ats : List (List (String × Json))) (start i : Nat) (acts : List Json),
      buildActions start i ats = some acts →
      acts.length = ats.length ∧
      ∀ k (hk : k < ats.length) (hk2 : k < acts.length),
        ∃ (r : Int) (f : List (String × Json)),
          relOf (ats.get ⟨k, hk⟩) = some r ∧
          acts.get ⟨k, hk2⟩ = Json.obj f ∧
          ((∀ p ∈ ats.get ⟨k, hk⟩, p.1 ≠ "id") →
            jlookup f "id" = some (Json.str (actionId (i + k)))) ∧
          ((∀ p ∈ ats.get ⟨k, hk⟩, p.1 ≠ "time") →
            jlookup f "time" =
              some (Json.str (formatTime (Int.toNat (start + r))))) ∧
          (((ats.get ⟨k, hk⟩).map Prod.fst).Nodup →
            jlookup f "relativeTime" = some (Json.num r)) := by
  intro ats
  induction ats with
  | nil =>
    intro start i acts h
    simp only [buildActions, Option.some.injEq] at h
    subst h
    exact ⟨rfl, fun k hk _ => absurd hk (Nat.not_lt_zero k)⟩
  | cons act rest ih =>
    intro start i acts h
    rw [buildActions_cons] at h
    cases hrel : relOf act with
    | none => rw [hrel] at h; exact absurd h (by simp)
    | some rel =>
    rw [hrel, Option.some_bind] at h
    cases ha : jlookup act "action" with
    | none => rw [ha] at h; exact absurd h (by simp)
    | some av =>
    rw [ha, Option.some_bind] at h
    cases hb : buildActions start (i + 1) rest with
    | none => rw [hb] at h; exact absurd h (by simp)
    | some acts2 =>
    rw [hb, Option.some_bind, Option.some.injEq] at h
    subst h
    obtain ⟨hlen, hspec⟩ := ih start (i + 1) acts2 hb
    refine ⟨by simp only [List.length_cons, hlen], ?_⟩
    intro k hk hk2
    cases k with
    | zero =>
      refine ⟨rel, _, hrel, rfl, ?_, ?_, ?_⟩
      · intro hid
        have hent : ∀ p ∈ act.filter (fun p => p.1 != "action"), p.1 ≠ "id" :=
          fun p hp => hid p (List.mem_of_mem_filter hp)
        rw [jlookup_dictUpdateAll_absent _ _ _ hent]
        rfl
      · intro htime
        have hent : ∀ p ∈ act.filter (fun p => p.1 != "action"), p.1 ≠ "time" :=
          fun p hp => htime p (List.mem_of_mem_filter hp)
        rw [jlookup_dictUpdateAll_absent _ _ _ hent]
        rfl
      · intro hnd
        have hmem : ("relativeTime", Json.num rel) ∈ act :=
          jlookup_mem (relOf_some hrel)
        have hmf : ("relativeTime", Json.num rel) ∈
            act.filter (fun p => p.1 != "action") :=
          List.mem_filter.mpr ⟨hmem, rfl⟩
        have hndf : ((act.filter (fun p => p.1 != "action")).map Prod.fst).Nodup :=
          List.Nodup.sublist (List.Sublist.map Prod.fst (List.filter_sublist act)) hnd
        exact jlookup_dictUpdateAll_mem _ _ _ _ hmf hndf
    | succ j =>
      have hk' : j < rest.length := by
        simp only [List.length_cons] at hk
        omega
      have hk2' : j < acts2.length := by
        simp only [List.length_cons] at hk2
        omega
      obtain ⟨r, f, h1, h2, h3, h4, h5⟩ := hspec j hk' hk2'
      refine ⟨r, f, h1, h2, ?_, h4, h5⟩
      intro hid
      rw [show i + (j + 1) = i + 1 + j from by omega]
      exact h3 hid

theorem hexChar_nospace {k : Nat} (h : k < 16) : hexChar k ≠ ' ' := by
  interval_cases k <;> decide

theorem hex4_nospace (v : Nat) (x : Char) (hx : x ∈ hex4 v) : x ≠ ' ' := by
  simp [hex4] at hx
  rcases hx with rfl | rfl | rfl | rfl <;> exact hexChar_nospace (by omega)

theorem escChar_nospace (c : Char) (x : Char) (hc : c ≠ ' ')
    (hx : x ∈ escChar c) : x ≠ ' ' := by
  unfold escChar at hx
  split_ifs at hx with h1 h2 h3 h8 h9 h10 h12 h13 hbmp
  · rcases List.mem_cons.mp hx with rfl | hx
    · decide
    · simp at hx
      subst hx
      decide
  · rcases List.mem_cons.mp hx with rfl | hx
    · decide
    · simp at hx
      subst hx
      decide
  · simp at hx
    subst hx
    exact hc
  · rcases List.mem_cons.mp hx with rfl | hx
    · decide
    · simp at hx
      subst hx
      decide
  · rcases List.mem_cons.mp hx with rfl | hx
    · decide
    · simp at hx
      subst hx
      decide
  · rcases List.mem_cons.mp hx with rfl | hx
    · decide
    · simp at hx
      subst hx
      decide
  · rcases List.mem_cons.mp hx with rfl | hx
    · decide
    · simp at hx
      subst hx
      decide
  · rcases List.mem_cons.mp hx with rfl | hx
    · decide
    · simp at hx
      subst hx
      decide
  · rcases List.mem_cons.mp hx with rfl | hx
    · decide
    · rcases List.mem_cons.mp hx with rfl | hx
      · decide
      · exact hex4_nospace _ x hx
  · rcases List.mem_append.mp hx with hx | hx
    · rcases List.mem_cons.mp hx with rfl | hx
      · decide
      · rcases List.mem_cons.mp hx with rfl | hx
        · decide
        · exact hex4_nospace _ x hx
    · rcases List.mem_cons.mp hx with rfl | hx
      · decide
      · rcases List.mem_cons.mp hx with rfl | hx
        · decide
        · exact hex4_nospace _ x hx

theorem digitsRec_nospace (n : Nat) : ∀ x ∈ digitsRec n, x ≠ ' ' := by
  induction n using Nat.strong_induction_on with
  | _ n ih =>
    intro x hx
    rw [digitsRec] at hx
    by_cases h : n < 10
    · simp [h] at hx
      subst hx
      intro he
      have h2 := congrArg Char.toNat he
      rw [toNat_ofNat_valid (by left; omega)] at h2
      rw [show (' ').toNat = 32 from rfl] at h2
      omega
    · simp [h] at hx
      rcases hx with hx | hx
      · exact ih (n / 10) (Nat.div_lt_self (by omega) (by omega)) x hx
      · subst hx
        intro he
        have h2 := congrArg Char.toNat he
        rw [toNat_ofNat_valid (by left; omega)] at h2
        rw [show (' ').toNat = 32 from rfl] at h2
        omega

theorem serStrChars_nospace (s : List Char) (x : Char)
    (hs : ∀ c ∈ s, c ≠ ' ') (hx : x ∈ serStrChars s) : x ≠ ' ' := by
  unfold serStrChars at hx
  rcases List.mem_cons.mp hx with rfl | hx
  · decide
  · rcases List.mem_append.mp hx with hx | hx
    · obtain ⟨c, hc1, hc2⟩ := List.mem_flatMap.mp hx
      exact escChar_nospace c x (hs c hc1) hc2
    · simp at hx
      subst hx
      decide

theorem serInt_nospace (n : Int) (x : Char) (hx : x ∈ serInt n) : x ≠ ' ' := by
  cases n with
  | ofNat m =>
    rw [show serInt (Int.ofNat m) = decDigits m from rfl, decDigits_eq] at hx
    exact digitsRec_nospace m x hx
  | negSucc m =>
    rw [show serInt (Int.negSucc m) = '-' :: decDigits (m + 1) from rfl,
      decDigits_eq] at hx
    rcases List.mem_cons.mp hx with rfl | hx
    · decide
    · exact digitsRec_nospace (m + 1) x hx

theorem all_nospace {s : List Char} (h : (s.all (fun c => c != ' ')) = true) :
    ∀ c ∈ s, c ≠ ' ' := by
  intro c hc
  have := List.all_eq_true.mp h c hc
  simpa using this

theorem serJson_nospace_all (N : Nat) :
    (∀ j, sizeJ j ≤ N → noSpaceJson j = true → ∀ x ∈ serJson j, x ≠ ' ') ∧
    (∀ e es, sizeA (e :: es) ≤ N → noSpaceArr (e :: es) = true →
      ∀ x ∈ serArr (e :: es), x ≠ ' ') ∧
    (∀ k v ms, sizeO ((k, v) :: ms) ≤ N → noSpaceObj ((k, v) :: ms) = true →
      ∀ x ∈ serObj ((k, v) :: ms), x ≠ ' ') := by
  induction N using Nat.strong_induction_on with
  | _ N ih =>
    refine ⟨?_, ?_, ?_⟩
    · intro j hN hns x hx
      cases j with
      | null =>
        rcases List.mem_cons.mp hx with rfl | hx
        · decide
        · simp at hx
          rcases hx with rfl | rfl | rfl <;> decide
      | bool b =>
        cases b with
        | true =>
          rcases List.mem_cons.mp hx with rfl | hx
          · decide
          · simp at hx
            rcases hx with rfl | rfl | rfl <;> decide
        | false =>
          rcases List.mem_cons.mp hx with rfl | hx
          · decide
          · simp at hx
            rcases hx with rfl | rfl | rfl | rfl <;> decide
      | num n => exact serInt_nospace n x hx
      | str s =>
        exact serStrChars_nospace s.data x
          (all_nospace (by rw [show noSpaceJson (Json.str s) =
            (s.data.all (fun c => c != ' ')) from rfl] at hns; exact hns)) hx
      | arr xs =>
        cases xs with
        | nil =>
          have h4 : serJson (Json.arr []) = ['[', ']'] := rfl
          rw [h4] at hx
          simp at hx
          rcases hx with rfl | rfl <;> decide
        | cons e es =>
          rw [show serJson (Json.arr (e :: es)) =
            '[' :: (serArr (e :: es) ++ [']']) from rfl] at hx
          rcases List.mem_cons.mp hx with rfl | hx
          · decide
          · rcases List.mem_append.mp hx with hx | hx
            · exact (ih (sizeA (e :: es)) (by
                have h0 : sizeJ (Json.arr (e :: es)) = 1 + sizeA (e :: es) := rfl
                omega)).2.1 e es (le_refl _)
                (by rw [show noSpaceJson (Json.arr (e :: es)) =
                  noSpaceArr (e :: es) from rfl] at hns; exact hns) x hx
            · simp at hx
              subst hx
              decide
      | obj xs =>
        cases xs with
        | nil =>
          have h4 : serJson (Json.obj []) = ['{', '}'] := rfl
          rw [h4] at hx
          simp at hx
          rcases hx with rfl | rfl <;> decide
        | cons m ms =>
          obtain ⟨k, v⟩ := m
          rw [show serJson (Json.obj ((k, v) :: ms)) =
            '{' :: (serObj ((k, v) :: ms) ++ ['}']) from rfl] at hx
          rcases List.mem_cons.mp hx with rfl | hx
          · decide
          · rcases List.mem_append.mp hx with hx | hx
            · exact (ih (sizeO ((k, v) :: ms)) (by
                have h0 : sizeJ (Json.obj ((k, v) :: ms)) =
                  1 + sizeO ((k, v) :: ms) := rfl
                omega)).2.2 k v ms (le_refl _)
                (by rw [show noSpaceJson (Json.obj ((k, v) :: ms)) =
                  noSpaceObj ((k, v) :: ms) from rfl] at hns; exact hns) x hx
            · simp at hx
              subst hx
              decide
    · intro e es hN hns x hx
      cases es with
      | nil =>
        rw [show serArr [e] = serJson e from rfl] at hx
        rw [show noSpaceArr [e] = (noSpaceJson e && noSpaceArr []) from rfl] at hns
        obtain ⟨hns1, -⟩ : noSpaceJson e = true ∧ noSpaceArr [] = true := by
          rw [Bool.and_eq_true] at hns; exact hns
        exact (ih (sizeJ e) (by
          have h0 : sizeA [e] = 1 + sizeJ e + sizeA ([] : List Json) := rfl
          have h0b : sizeA ([] : List Json) = 0 := rfl
          omega)).1 e (le_refl _) hns1 x hx
      | cons y ys =>
        have hp := sizeJ_pos e
        rw [show serArr (e :: y :: ys) =
          serJson e ++ ',' :: serArr (y :: ys) from rfl] at hx
        rw [show noSpaceArr (e :: y :: ys) =
          (noSpaceJson e && noSpaceArr (y :: ys)) from rfl] at hns
        obtain ⟨hns1, hns2⟩ : noSpaceJson e = true ∧ noSpaceArr (y :: ys) = true := by
          rw [Bool.and_eq_true] at hns; exact hns
        have h0 : sizeA (e :: y :: ys) = 1 + sizeJ e + sizeA (y :: ys) := rfl
        rcases List.mem_append.mp hx with hx | hx
        · exact (ih (sizeJ e) (by omega)).1 e (le_refl _) hns1 x hx
        · rcases List.mem_cons.mp hx with rfl | hx
          · decide
          · exact (ih (sizeA (y :: ys)) (by omega)).2.1 y ys (le_refl _) hns2 x hx
    · intro k v ms hN hns x hx
      rw [show noSpaceObj ((k, v) :: ms) =
        ((k.data.all (fun c => c != ' ') && noSpaceJson v) && noSpaceObj ms)
        from rfl] at hns
      obtain ⟨hns12, hns3⟩ : (k.data.all (fun c => c != ' ') && noSpaceJson v) = true ∧
          noSpaceObj ms = true := by
        rw [Bool.and_eq_true] at hns; exact hns
      obtain ⟨hnsk, hnsv⟩ : (k.data.all (fun c => c != ' ')) = true ∧
          noSpaceJson v = true := by
        rw [Bool.and_eq_true] at hns12; exact hns12
      cases ms with
      | nil =>
        rw [show serObj [(k, v)] =
          serStrChars k.data ++ ':' :: serJson v from rfl] at hx
        have h0 : sizeO [(k, v)] = 1 + sizeJ v + sizeO ([] : List (String × Json)) := rfl
        have h0b : sizeO ([] : List (String × Json)) = 0 := rfl
        rcases List.mem_append.mp hx with hx | hx
        · exact serStrChars_nospace k.data x (all_nospace hnsk) hx
        · rcases List.mem_cons.mp hx with rfl | hx
          · decide
          · exact (ih (sizeJ v) (by omega)).1 v (le_refl _) hnsv x hx
      | cons m2 ms2 =>
        obtain ⟨k2, v2⟩ := m2
        have hp := sizeJ_pos v
        rw [show serObj ((k, v) :: (k2, v2) :: ms2) =
          serStrChars k.data ++ ':' :: serJson v ++
            ',' :: serObj ((k2, v2) :: ms2) from rfl] at hx
        have h0 : sizeO ((k, v) :: (k2, v2) :: ms2) =
          1 + sizeJ v + sizeO ((k2, v2) :: ms2) := rfl
        rcases List.mem_append.mp hx with hx | hx
        · rcases List.mem_append.mp hx with hx | hx
          · exact serStrChars_nospace k.data x (all_nospace hnsk) hx
          · rcases List.mem_cons.mp hx with rfl | hx
            · decide
            · exact (ih (sizeJ v) (by omega)).1 v (le_refl _) hnsv x hx
        · rcases List.mem_cons.mp hx with rfl | hx
          · decide
          · exact (ih (sizeO ((k2, v2) :: ms2)) (by omega)).2.2 k2 v2 ms2
              (le_refl _) hns3 x hx

/-- Space-free events serialize with no space anywhere: the compact form
inserts no whitespace between structural tokens. -/
theorem serJson_nospace (j : Json) (h : noSpaceJson j = true) :
    ∀ x ∈ serJson j, x ≠ ' ' :=
  (serJson_nospace_all (sizeJ j)).1 j (le_refl _) h

example : generate_event T5 0 2 = some EV5 := rfl

theorem buildActions_total :
    ∀ (ats : List (List (String × Json))) (start i : Nat),
      (∀ act ∈ ats, (∃ r : Int, relOf act = some r) ∧
        (∃ v, jlookup act "action" = some v)) →
      ∃ acts, buildActions start i ats = some acts := by
  intro ats
  induction ats with
  | nil => intro start i _; exact ⟨[], rfl⟩
  | cons act rest ih =>
    intro start i h
    obtain ⟨⟨r, hr⟩, ⟨v, hv⟩⟩ := h act (List.mem_cons_self act rest)
    obtain ⟨acts2, hacts⟩ :=
      ih start (i + 1) (fun a ha => h a (List.mem_cons_of_mem act ha))
    exact ⟨_, by
      rw [buildActions_cons, hr, Option.some_bind, hv, Option.some_bind,
        hacts, Option.some_bind]⟩

theorem generate_event_fields {tpl : Template} {now sm : Nat}
    {acts : List Json}
    (hb : buildActions (now + 60 * sm) 0 tpl.actions = some acts) :
    generate_event tpl now sm = some (Json.obj [
      ("title", Json.str tpl.title),
      ("description", Json.str tpl.description),
      ("startTime", Json.str (formatTime (now + 60 * sm))),
      ("timezone", Json.str "America/Denver"),
      ("timeline", Json.arr acts)]) := by
  simp only [generate_event]
  rw [hb, Option.some_bind]

theorem generate_event_inv {tpl : Template} {now sm : Nat} {ev : Json}
    (h : generate_event tpl now sm = some ev) :
    ∃ acts, buildActions (now + 60 * sm) 0 tpl.actions = some acts ∧
      jlookup (fieldsOf ev) "timeline" = some (Json.arr acts) := by
  simp only [generate_event] at h
  cases hb : buildActions (now + 60 * sm) 0 tpl.actions with
  | none => rw [hb] at h; exact absurd h (by simp)
  | some acts =>
    rw [hb, Option.some_bind, Option.some.injEq] at h
    subst h
    exact ⟨acts, rfl, rfl⟩

theorem pantheonTimes_cons (start : Nat) (act : List (String × Json))
    (rest : List (List (String × Json))) :
    pantheonTimes start (act :: rest) =
      (Option.bind (relOf act) fun rel =>
       Option.bind (pantheonTimes start rest) fun acts =>
       some (Json.obj (dictUpdate act "time"
         (Json.str (formatTime (Int.toNat (start + rel))))) :: acts)) := rfl

theorem pantheonTimes_spec :
    ∀ (ats : List (List (String × Json))) (start : Nat),
      (∀ act ∈ ats, ∃ r : Int, relOf act = some r) →
      ∃ acts, pantheonTimes start ats = some acts ∧
        acts.length = ats.length ∧
        ∀ a ∈ acts, ∃ r : Int,
          jlookup (fieldsOf a) "relativeTime" = some (Json.num r) := by
  intro ats
  induction ats with
  | nil => intro start _; exact ⟨[], rfl, rfl, by simp⟩
  | cons act rest ih =>
    intro start h
    obtain ⟨r, hr⟩ := h act (List.mem_cons_self act rest)
    obtain ⟨acts2, hp, hlen, hall⟩ :=
      ih start (fun a ha => h a (List.mem_cons_of_mem act ha))
    refine ⟨Json.obj (dictUpdate act "time"
      (Json.str (formatTime (Int.toNat (start + r))))) :: acts2, ?_, ?_, ?_⟩
    · rw [pantheonTimes_cons, hr, Option.some_bind, hp, Option.some_bind]
    · simp only [List.length_cons, hlen]
    · intro a ha
      rcases List.mem_cons.mp ha with rfl | ha
      · refine ⟨r, ?_⟩
        show jlookup (dictUpdate act "time"
          (Json.str (formatTime (Int.toNat (start + r))))) "relativeTime" = _
        rw [jlookup_dictUpdate_other act _ (by decide)]
        exact relOf_some hr
      · exact hall a ha

theorem generate_event_relT (tpl : Template) (now sm : Nat)
    (h : ∀ act ∈ tpl.actions, (∃ r : Int, relOf act = some r) ∧
      (∃ v, jlookup act "action" = some v) ∧ (act.map Prod.fst).Nodup) :
    ∃ ev, generate_event tpl now sm = some ev ∧
      ∃ acts, jlookup (fieldsOf ev) "timeline" = some (Json.arr acts) ∧
        acts.length = tpl.actions.length ∧
        ∀ a ∈ acts, ∃ r : Int,
          jlookup (fieldsOf a) "relativeTime" = some (Json.num r) := by
  obtain ⟨acts, hacts⟩ := buildActions_total tpl.actions (now + 60 * sm) 0
    (fun a ha => ⟨(h a ha).1, (h a ha).2.1⟩)
  obtain ⟨hlen, hspec⟩ := buildActions_spec tpl.actions (now + 60 * sm) 0 acts hacts
  refine ⟨_, generate_event_fields hacts, acts, rfl, hlen, ?_⟩
  intro a ha
  obtain ⟨n, hget⟩ := List.mem_iff_get.mp ha
  obtain ⟨k, hk2⟩ := n
  have hkt : k < tpl.actions.length := by omega
  obtain ⟨r, f, h1, h2, h3, h4, h5⟩ := hspec k hkt hk2
  refine ⟨r, ?_⟩
  rw [← hget, h2]
  show jlookup f "relativeTime" = some (Json.num r)
  exact h5 (h _ (List.get_mem tpl.actions k hkt)).2.2

/-! ## The claims -/
/-- C1: for every event the schema validator accepts, decoding the token
of encode_event yields exactly the encoded event — each stage of the
pipeline (compact JSON, gzip, URL-safe base64 with padding stripped) is
inverted exactly, so encode_event is injective on well-formed events. -/
theorem C1_roundtrip (mtime : Nat) (e : Json) (h : validateEvent e = none) :
    decode (encode_event mtime e) = Except.ok e := by
  rw [encode_event_eq]
  have hgz : ∀ x ∈ gzipCompress mtime (utf8Encode (jsonDumps e)), x < 256 :=
    gzipCompress_lt _ _ (utf8Encode_lt _)
  obtain ⟨-, -, hdec⟩ := urlSafeToken_struct _ hgz
  unfold decode
  rw [hdec]
  show decodeBytes (gzipCompress mtime (utf8Encode (jsonDumps e))) =
    Except.ok e
  unfold decodeBytes
  rw [gunzip_gzipCompress]
  show decodePayload (utf8Encode (jsonDumps e)) = Except.ok e
  unfold decodePayload
  rw [utf8_roundtrip_dumps]
  show decodeText (jsonDumps e) = Except.ok e
  unfold decodeText
  rw [jsonLoads_dumps]
  show (match validateEvent e with
    | some fld => Except.error (DecodeErr.schema (some fld))
    | none => Except.ok e) = Except.ok e
  rw [h]

/-- C1 witness: the minimal valid event round-trips at clock 0. -/
theorem C1_roundtrip_witness :
    validateEvent E0 = none ∧ decode (encode_event 0 E0) = Except.ok E0 :=
  ⟨rfl, C1_roundtrip 0 E0 rfl⟩

/-- C2: encode_event is NOT deterministic: the same event encoded at two
different clock readings yields two different tokens, because
gzip.compress embeds the current time in the gzip MTIME header field. -/
theorem C2_nondeterministic : encode_event 0 E0 ≠ encode_event 1 E0 := by
  decide

/-- C3: the token is non-empty and uses only the URL-safe alphabet
A-Z a-z 0-9 - _ (this holds for every event value, valid or not). -/
theorem C3_alphabet (mtime : Nat) (e : Json) :
    encode_event mtime e ≠ [] ∧
    ∀ c ∈ encode_event mtime e, urlOk c = true := by
  rw [encode_event_eq]
  have hgz : ∀ x ∈ gzipCompress mtime (utf8Encode (jsonDumps e)), x < 256 :=
    gzipCompress_lt _ _ (utf8Encode_lt _)
  obtain ⟨hlen, halpha, -⟩ := urlSafeToken_struct _ hgz
  refine ⟨?_, halpha⟩
  intro hnil
  rw [hnil] at hlen
  simp only [List.length_nil] at hlen
  have hpos : 1 ≤ (gzipCompress mtime (utf8Encode (jsonDumps e))).length := by
    simp only [gzipCompress, List.cons_append, List.nil_append,
      List.length_append, List.length_cons]
    omega
  omega

/-- C4: encode_event is exactly the staged pipeline compact-JSON, then
gzip, then base64 with the two substitutions and padding stripped; and the
compact serialization inserts no whitespace: for an event whose own
strings are space-free, the serialized text contains no space at all. -/
theorem C4_steps (mtime : Nat) (e : Json) :
    encode_event mtime e =
      urlSafeToken (gzipCompress mtime (utf8Encode (jsonDumps e))) ∧
    (noSpaceJson e = true → ∀ x ∈ (jsonDumps e).data, x ≠ ' ') := by
  refine ⟨encode_event_eq mtime e, ?_⟩
  intro h
  rw [show jsonDumps e = String.mk (serJson e) from rfl, string_mk_data]
  exact serJson_nospace e h

/-- C4 witness: the minimal valid event is space-free and so is its
serialization. -/
theorem C4_steps_witness :
    noSpaceJson E0 = true ∧ ∀ x ∈ (jsonDumps E0).data, x ≠ ' ' :=
  ⟨rfl, (C4_steps 0 E0).2 rfl⟩

/-- C9: the token's length is never 1 mod 4 — base64 emits a multiple of
four characters and strips at most two '=' — which is exactly what makes
the decoder's (4 - len mod 4) mod 4 re-padding formula restore a length
divisible by four. -/
theorem C9_length (mtime : Nat) (e : Json) :
    (encode_event mtime e).length % 4 ≠ 1 ∧
    ((encode_event mtime e).length +
      (4 - (encode_event mtime e).length % 4) % 4) % 4 = 0 := by
  rw [encode_event_eq]
  obtain ⟨hlen, -, -⟩ := urlSafeToken_struct
    (gzipCompress mtime (utf8Encode (jsonDumps e)))
    (gzipCompress_lt mtime _ (utf8Encode_lt _))
  constructor <;> omega

/-- C5: the conductor builder walks the template in order; the k-th built
action (0-based) gets id "action-(k+1)" and time startTime + relativeTime
seconds in the strftime format, order preserved index by index; and the
test-event builder produces ids action-1 .. action-6 in order.  (The
templates are assumed not to carry "id"/"time" keys of their own — the
Builder contract reserves those — since the ** spread would override the
generated values.) -/
theorem C5_ids_and_times (tpl : Template) (now sm : Nat) (ev : Json)
    (hclean : ∀ act ∈ tpl.actions, ∀ p ∈ act, p.1 ≠ "id" ∧ p.1 ≠ "time")
    (hev : generate_event tpl now sm = some ev) :
    (∃ acts : List Json,
      jlookup (fieldsOf ev) "timeline" = some (Json.arr acts) ∧
      acts.length = tpl.actions.length ∧
      ∀ k (hk : k < tpl.actions.length) (hk2 : k < acts.length),
        ∃ (r : Int) (f : List (String × Json)),
          relOf (tpl.actions.get ⟨k, hk⟩) = some r ∧
          acts.get ⟨k, hk2⟩ = Json.obj f ∧
          jlookup f "id" = some (Json.str (actionId k)) ∧
          jlookup f "time" =
            some (Json.str (formatTime (Int.toNat (↑(now + 60 * sm) + r))))) ∧
    (∀ now2 sm2 iv : Nat,
      actionIds (timelineOf (generate_test_event now2 sm2 iv)) =
        ["action-1", "action-2", "action-3", "action-4", "action-5",
         "action-6"]) := by
  obtain ⟨acts, hb, htl⟩ := generate_event_inv hev
  obtain ⟨hlen, hspec⟩ := buildActions_spec tpl.actions (now + 60 * sm) 0 acts hb
  refine ⟨⟨acts, htl, hlen, ?_⟩, fun now2 sm2 iv => rfl⟩
  intro k hk hk2
  obtain ⟨r, f, h1, h2, h3, h4, h5⟩ := hspec k hk hk2
  have hmem := List.get_mem tpl.actions k hk
  refine ⟨r, f, h1, h2, ?_, ?_⟩
  · have hid := h3 (fun p hp => ((hclean _ hmem) p hp).1)
    rw [Nat.zero_add] at hid
    exact hid
  · exact h4 (fun p hp => ((hclean _ hmem) p hp).2)

/-- C5 witness: the one-action template T5 built at clock 0 with a
2-minute offset. -/
theorem C5_witness :
    generate_event T5 0 2 = some EV5 ∧
    ∃ acts, jlookup (fieldsOf EV5) "timeline" = some (Json.arr acts) ∧
      acts.length = T5.actions.length := by
  refine ⟨rfl, ?_⟩
  obtain ⟨⟨acts, h1, h2, -⟩, -⟩ :=
    C5_ids_and_times T5 0 2 EV5 (by decide) rfl
  exact ⟨acts, h1, h2⟩

/-- C6: with non-negative relativeTime values every built action's instant
is at or after the event's start instant, and the instants are monotone in
the relativeTime values, so a template sorted by relativeTime yields a
non-decreasing timeline. -/
theorem C6_monotone (tpl : Template) (now sm : Nat) (ev : Json)
    (hclean : ∀ act ∈ tpl.actions, ∀ p ∈ act, p.1 ≠ "time")
    (hev : generate_event tpl now sm = some ev)
    (hnn : ∀ act ∈ tpl.actions, ∀ r : Int, relOf act = some r → 0 ≤ r) :
    ∃ acts : List Json,
      jlookup (fieldsOf ev) "timeline" = some (Json.arr acts) ∧
      (∀ k (hk : k < tpl.actions.length) (hk2 : k < acts.length),
        ∃ (r : Int) (f : List (String × Json)),
          relOf (tpl.actions.get ⟨k, hk⟩) = some r ∧
          acts.get ⟨k, hk2⟩ = Json.obj f ∧
          jlookup f "time" =
            some (Json.str (formatTime (Int.toNat (↑(now + 60 * sm) + r)))) ∧
          now + 60 * sm ≤ Int.toNat (↑(now + 60 * sm) + r)) ∧
      (∀ (j k : Nat) (hj : j < tpl.actions.length)
          (hk : k < tpl.actions.length) (rj rk : Int),
        relOf (tpl.actions.get ⟨j, hj⟩) = some rj →
        relOf (tpl.actions.get ⟨k, hk⟩) = some rk → rj ≤ rk →
        Int.toNat (↑(now + 60 * sm) + rj) ≤
          Int.toNat (↑(now + 60 * sm) + rk)) := by
  obtain ⟨acts, hb, htl⟩ := generate_event_inv hev
  obtain ⟨hlen, hspec⟩ := buildActions_spec tpl.actions (now + 60 * sm) 0 acts hb
  refine ⟨acts, htl, ?_, ?_⟩
  · intro k hk hk2
    obtain ⟨r, f, h1, h2, h3, h4, h5⟩ := hspec k hk hk2
    have hmem := List.get_mem tpl.actions k hk
    have hr0 : 0 ≤ r := hnn _ hmem r h1
    refine ⟨r, f, h1, h2, h4 (fun p hp => (hclean _ hmem) p hp), by omega⟩
  · intro j k hj hk rj rk hrj hrk hle
    omega

/-- C6 witness: T6's two actions at relative 0 and 20 seconds. -/
theorem C6_witness :
    generate_event T6 0 2 = some (Json.obj [
      ("title", Json.str "T"), ("description", Json.str "D"),
      ("startTime", Json.str "1970-01-01T00:02:00Z"),
      ("timezone", Json.str "America/Denver"),
      ("timeline", Json.arr [
        Json.obj [("id", Json.str "action-1"),
          ("time", Json.str "1970-01-01T00:02:00Z"),
          ("action", Json.str "A"),
          ("audioAnnounce", Json.bool true),
          ("announceActionName", Json.bool true),
          ("relativeTime", Json.num 0)],
        Json.obj [("id", Json.str "action-2"),
          ("time", Json.str "1970-01-01T00:02:20Z"),
          ("action", Json.str "B"),
          ("audioAnnounce", Json.bool true),
          ("announceActionName", Json.bool true),
          ("relativeTime", Json.num 20)]])]) ∧
    Int.toNat (↑(0 + 60 * 2 : Nat) + (0 : Int)) ≤
      Int.toNat (↑(0 + 60 * 2 : Nat) + (20 : Int)) := by
  refine ⟨rfl, ?_⟩
  obtain ⟨acts, -, -, hmono⟩ :=
    C6_monotone T6 0 2 _ (by decide) rfl
      (by
        intro act hact r hr
        rcases List.mem_cons.mp hact with rfl | hact
        · rw [show relOf [("relativeTime", Json.num 0),
            ("action", Json.str "A")] = some 0 from rfl] at hr
          simp only [Option.some.injEq] at hr
          omega
        rcases List.mem_cons.mp hact with rfl | hact
        · rw [show relOf [("relativeTime", Json.num 20),
            ("action", Json.str "B")] = some 20 from rfl] at hr
          simp only [Option.some.injEq] at hr
          omega
        · simp at hact)
  exact hmono 0 1 (by decide) (by decide) 0 20 rfl rfl (by omega)

/-- C7 (amended): the builder performs no validation at all — for every
template whose actions carry a numeric relativeTime (of any sign) and an
action value, building succeeds and returns an event; no error is raised
at build time. -/
theorem C7_no_validation (tpl : Template)
    (h : ∀ act ∈ tpl.actions, (∃ r : Int, relOf act = some r) ∧
      ∃ v, jlookup act "action" = some v) (now sm : Nat) :
    ∃ ev, generate_event tpl now sm = some ev := by
  obtain ⟨acts, hacts⟩ := buildActions_total tpl.actions (now + 60 * sm) 0 h
  exact ⟨_, generate_event_fields hacts⟩

/-- C7 counterexample: a template with a negative relativeTime builds
without any failure, and a template smuggling duplicate ids builds an
event whose timeline carries the id "dup" twice — no ValidationError
exists anywhere in the builder. -/
theorem C7_counterexample :
    (∃ ev, generate_event negTemplate 0 0 = some ev) ∧
    (∃ ev, generate_event dupIdTemplate 0 0 = some ev ∧
      actionIds (timelineOf ev) = ["dup", "dup"]) :=
  ⟨⟨_, rfl⟩, ⟨_, rfl, rfl⟩⟩

/-- C7 witness: C7_no_validation applied to the negative-relativeTime
template. -/
theorem C7_witness : ∃ ev, generate_event negTemplate 1000 2 = some ev :=
  C7_no_validation negTemplate
    (by
      intro act hact
      rcases List.mem_cons.mp hact with rfl | hact
      · exact ⟨⟨-5, rfl⟩, ⟨Json.str "Step back", rfl⟩⟩
      · simp at hact)
    1000 2

/-- C8: decode fails with CorruptPayloadError exactly when base64 decoding
or gzip decompression fails; a schema violation (here: a named offending
field from the validator, e.g. the first missing required field) yields a
SchemaError naming that field; an object with no title is reported as
missing "title"; and decode returns an event only when the validator
accepts it whole — no partial event is ever returned. -/
theorem C8_errors :
    (∀ token : List Char,
      (decode token = Except.error DecodeErr.corrupt ↔
        (b64UrlDecode token = none ∨
         ∃ bs, b64UrlDecode token = some bs ∧ gunzip bs = none))) ∧
    (∀ (token : List Char) (bs payload : List Nat) (text : String)
        (j : Json) (fld : String),
      b64UrlDecode token = some bs → gunzip bs = some payload →
      utf8Decode payload = some text → jsonLoads text = some j →
      validateEvent j = some fld →
      decode token = Except.error (DecodeErr.schema (some fld))) ∧
    (∀ fields : List (String × Json), jlookup fields "title" = none →
      validateEvent (Json.obj fields) = some "title") ∧
    (∀ (token : List Char) (j : Json),
      decode token = Except.ok j → validateEvent j = none) := by
  have hcorrupt : ∀ (payload : List Nat),
      decodePayload payload ≠ Except.error DecodeErr.corrupt := by
    intro payload habs
    unfold decodePayload at habs
    cases hu : utf8Decode payload with
    | none =>
      rw [hu] at habs
      exact DecodeErr.noConfusion (Except.error.inj habs)
    | some text =>
      rw [hu] at habs
      have htext : decodeText text = Except.error DecodeErr.corrupt := habs
      unfold decodeText at htext
      cases hj : jsonLoads text with
      | none =>
        rw [hj] at htext
        exact DecodeErr.noConfusion (Except.error.inj htext)
      | some j =>
        rw [hj] at htext
        have htext2 : (match validateEvent j with
          | some fld => Except.error (DecodeErr.schema (some fld))
          | none => Except.ok j) = Except.error DecodeErr.corrupt := htext
        cases hv : validateEvent j with
        | none =>
          rw [hv] at htext2
          exact Except.noConfusion htext2
        | some fld =>
          rw [hv] at htext2
          exact DecodeErr.noConfusion (Except.error.inj htext2)
  refine ⟨?_, ?_, ?_, ?_⟩
  · intro token
    unfold decode
    cases hb : b64UrlDecode token with
    | none => exact ⟨fun _ => Or.inl rfl, fun _ => rfl⟩
    | some bs =>
      show decodeBytes bs = Except.error DecodeErr.corrupt ↔ _
      unfold decodeBytes
      cases hg : gunzip bs with
      | none => exact ⟨fun _ => Or.inr ⟨bs, rfl, hg⟩, fun _ => rfl⟩
      | some payload =>
        constructor
        · intro habs
          exact absurd habs (hcorrupt payload)
        · rintro (h1 | ⟨bs2, h2, h3⟩)
          · exact Option.noConfusion h1
          · have hbs := Option.some.inj h2
            subst hbs
            rw [hg] at h3
            exact Option.noConfusion h3
  · intro token bs payload text j fld h1 h2 h3 h4 h5
    unfold decode
    rw [h1]
    show decodeBytes bs = _
    unfold decodeBytes
    rw [h2]
    show decodePayload payload = _
    unfold decodePayload
    rw [h3]
    show decodeText text = _
    unfold decodeText
    rw [h4]
    show (match validateEvent j with
      | some fld => Except.error (DecodeErr.schema (some fld))
      | none => Except.ok j) = _
    rw [h5]
  · intro fields h
    have hc : checkReq fields "title" isNonEmptyStr = false := by
      unfold checkReq
      rw [h]
    simp [validateEvent, hc]
  · intro token j h
    unfold decode at h
    cases hb : b64UrlDecode token with
    | none =>
      rw [hb] at h
      exact Except.noConfusion h
    | some bs =>
      rw [hb] at h
      have h2 : decodeBytes bs = Except.ok j := h
      unfold decodeBytes at h2
      cases hg : gunzip bs with
      | none =>
        rw [hg] at h2
        exact Except.noConfusion h2
      | some payload =>
        rw [hg] at h2
        have h3 : decodePayload payload = Except.ok j := h2
        unfold decodePayload at h3
        cases hu : utf8Decode payload with
        | none =>
          rw [hu] at h3
          exact Except.noConfusion h3
        | some text =>
          rw [hu] at h3
          have h4 : decodeText text = Except.ok j := h3
          unfold decodeText at h4
          cases hj : jsonLoads text with
          | none =>
            rw [hj] at h4
            exact Except.noConfusion h4
          | some j2 =>
            rw [hj] at h4
            have h5 : (match validateEvent j2 with
              | some fld => Except.error (DecodeErr.schema (some fld))
              | none => Except.ok j2) = Except.ok j := h4
            cases hv : validateEvent j2 with
            | none =>
              rw [hv] at h5
              have hj2 : j2 = j := Except.ok.inj h5
              subst hj2
              exact hv
            | some fld =>
              rw [hv] at h5
              exact Except.noConfusion h5

/-- C8 witness: a one-character token is corrupt (bad base64), and an
object with no fields is reported as missing "title". -/
theorem C8_witness :
    decode ['!'] = Except.error DecodeErr.corrupt ∧
    validateEvent (Json.obj []) = some "title" := by
  have h := C8_errors
  exact ⟨(h.1 ['!']).mpr (Or.inl rfl), h.2.2.1 [] rfl⟩

/-- C10: the conductor builder copies every template key except "action"
into the built action via the ** spread, so each built timeline action of
both EVENTS templates retains the builder-internal relativeTime key; the
pantheon builder mutates its action dicts in place, likewise keeping
relativeTime.  Neither strips it before encode_event. -/
theorem C10_relativeTime_passthrough :
    (∀ p ∈ EVENTS, ∀ now sm : Nat,
      ∃ ev, generate_event p.2 now sm = some ev ∧
        ∃ acts, jlookup (fieldsOf ev) "timeline" = some (Json.arr acts) ∧
          acts.length = p.2.actions.length ∧
          ∀ a ∈ acts, ∃ r : Int,
            jlookup (fieldsOf a) "relativeTime" = some (Json.num r)) ∧
    (∀ now sm : Nat,
      ∃ ev, generate_pantheon_event now sm = some ev ∧
        ∃ acts, jlookup (fieldsOf ev) "timeline" = some (Json.arr acts) ∧
          acts.length = pantheonActions.length ∧
          ∀ a ∈ acts, ∃ r : Int,
            jlookup (fieldsOf a) "relativeTime" = some (Json.num r)) := by
  constructor
  · intro p hp now sm
    rcases List.mem_cons.mp hp with rfl | hp
    · exact generate_event_relT inauguralTemplate now sm
        (by
          intro act hact
          fin_cases hact <;>
            exact ⟨⟨_, rfl⟩, ⟨_, rfl⟩, by decide⟩)
    rcases List.mem_cons.mp hp with rfl | hp
    · exact generate_event_relT diagnosticTemplate now sm
        (by
          intro act hact
          fin_cases hact <;>
            exact ⟨⟨_, rfl⟩, ⟨_, rfl⟩, by decide⟩)
    · simp at hp
  · intro now sm
    obtain ⟨acts, h1, h2, h3⟩ := pantheonTimes_spec pantheonActions
      (now + 60 * sm)
      (by
        intro act hact
        fin_cases hact <;> exact ⟨_, rfl⟩)
    refine ⟨Json.obj [
      ("title", Json.str "Pantheon Inaugural"),
      ("description", Json.str
        "Your AI assistants present: a demonstration of synchronized coordination."),
      ("startTime", Json.str (formatTime (now + 60 * sm))),
      ("timezone", Json.str "America/Denver"),
      ("timeline", Json.arr acts)], ?_, acts, rfl, h2, h3⟩
    simp only [generate_pantheon_event]
    rw [h1, Option.some_bind]

/-- C10 witness: the inaugural EVENTS entry at clock 0 with the default
2-minute offset. -/
theorem C10_witness :
    ∃ ev, generate_event inauguralTemplate 0 2 = some ev ∧
      ∃ acts, jlookup (fieldsOf ev) "timeline" = some (Json.arr acts) ∧
        acts.length = inauguralTemplate.actions.length ∧
        ∀ a ∈ acts, ∃ r : Int,
          jlookup (fieldsOf a) "relativeTime" = some (Json.num r) :=
  C10_relativeTime_passthrough.1 ("inaugural", inauguralTemplate)
    (List.mem_cons_self _ _) 0 2

end Conductor

